import Mathlib

/-!
Shallow embedding of the filesystem controller in `internal/sddp.go` (package
`internal` of the fusera repository), together with proofs about the claims of
its specification.

Conventions of the embedding:
* machine integers become `Nat` (inode ids, handle ids, sizes, byte counts);
* `time.Time` becomes a `Nat` tick passed explicitly as `now`;
* Go maps become association lists (`List (key × value)`), where assignment is
  modelled by prepending (for the tables, whose lookup takes the first match)
  or by in-place update;
* pointer-mutated shared `Inode` objects become entries of the global inode
  table, updated functionally through their inode id;
* fallible operations return `Except`/`Option`; a Go `panic` is a distinguished
  error value `OpErr.panicked`.

Types and functions of this repository that are referenced by `sddp.go` but
whose source is not part of the analysed tree (the `Inode`, `DirHandle` and
`FileHandle` method sets, `nr.ResolveNames`, and `fuseutil.WriteDirent`) are
modelled from the specification; each such definition carries a doc comment
starting with `Modelled from the spec:`.
-/

/-- `fuseops.RootInodeID` of the jacobsa/fuse library: the reserved inode id of
the root directory. -/
def RootInodeID : Nat := 1

/-- `InodeAttributes`: the attribute record stored in every inode
(size in bytes, modification time). -/
structure InodeAttributes where
  Size : Nat
  Mtime : Nat
deriving DecidableEq

/-- `fuseutil.DirentType`, restricted to the two values used by `sddp.go`. -/
inductive DirentType where
  | DT_File
  | DT_Directory
deriving DecidableEq

/-- The `Inode` record. Fields are the ones `sddp.go` reads or writes:
`Id`, `Name`, `FullName`, `Link`, `Attributes`, `KnownSize`, `AttrTime`,
the directory data (`isDir` for `inode.dir` being non-nil, `DirTime` for
`inode.dir.DirTime`, `children` for the child map name → inode id),
`s3Metadata`, `refcnt` and `fileHandles`. -/
structure Inode where
  Id : Nat
  Name : String
  FullName : String
  Link : String := ""
  Attributes : InodeAttributes := ⟨0, 0⟩
  KnownSize : Option Nat := none
  AttrTime : Nat := 0
  isDir : Bool := false
  DirTime : Nat := 0
  children : List (String × Nat) := []
  s3Metadata : List (String × String) := []
  refcnt : Nat := 0
  fileHandles : Nat := 0
deriving DecidableEq

/-- `FlagStorage`, restricted to the fields `sddp.go` uses in the verified
operations: the two cache TTLs. -/
structure FlagStorage where
  StatCacheTTL : Nat
  TypeCacheTTL : Nat
deriving DecidableEq

/-- `DirHandleEntry`: one unit of directory-listing materialization.
The Go field `Type` is spelled `DType` (`Type` is reserved in Lean);
`Inode = 0` is the "not yet realized as an Inode" marker. -/
structure DirHandleEntry where
  Name : String
  DType : DirentType
  Attributes : InodeAttributes
  ETag : Option String := none
  StorageClass : Option String := none
  Inode : Nat := 0
  Offset : Nat := 0
deriving DecidableEq

/-- Modelled from the spec: a Directory Handle holds the owning inode's id and
its listing cursor state; the cached entry sequence is the `listing` field, and
`dh.ReadDir i` returns its `i`-th element, the end of the sequence being
signalled by a sentinel empty result. -/
structure DirHandle where
  inodeId : Nat
  listing : List DirHandleEntry
deriving DecidableEq

/-- Modelled from the spec: a File Handle binds an owning inode to a Content
Buffer; `dirty` is the buffer's "not yet fetched" flag. -/
structure FileHandle where
  inodeId : Nat
  dirty : Bool := false
deriving DecidableEq

/-- The `Fusera` filesystem state: inode table, both handle tables, the two id
allocators and the configuration flags. -/
structure Fusera where
  flags : FlagStorage
  inodes : List (Nat × Inode) := []
  nextInodeID : Nat := RootInodeID + 1
  nextHandleID : Nat := 1
  dirHandles : List (Nat × DirHandle) := []
  fileHandles : List (Nat × FileHandle) := []
deriving DecidableEq

/-- In-place update of the value bound to key `k` in an association list. -/
def updA {α : Type} (m : List (Nat × α)) (k : Nat) (f : α → α) : List (Nat × α) :=
  m.map (fun p => if p.1 = k then (p.1, f p.2) else p)

/-- Go map assignment `m[k] = v` for the string-keyed `s3Metadata` map. -/
def mapSet (m : List (String × String)) (k v : String) : List (String × String) :=
  if (m.lookup k).isSome then m.map (fun p => if p.1 = k then (p.1, v) else p)
  else m ++ [(k, v)]

/-- Lookup in the inode table (`fs.inodes[id]`; `none` is Go's `nil`). -/
def Fusera.getInode? (fs : Fusera) (id : Nat) : Option Inode :=
  fs.inodes.lookup id

/-- Functional update of the inode bound to `id` in the table; models mutation
of the shared `*Inode` object. -/
def Fusera.updateInode (fs : Fusera) (id : Nat) (f : Inode → Inode) : Fusera :=
  { fs with inodes := updA fs.inodes id f }

/-- The keys of the inode table, newest first. -/
def Fusera.keys (fs : Fusera) : List Nat :=
  fs.inodes.map Prod.fst

/-- Modelled from the spec: `NewInode` creates a fresh node with the given name
and full path and empty metadata; its kind, attributes and id are filled in by
the caller. -/
def NewInode (name fullName : String) : Inode :=
  { Id := 0, Name := name, FullName := fullName }

/-- Modelled from the spec: `ToDir` turns an inode into a directory node; its
attributes take the fixed directory size 4096 (the size the construction
routine gives the root directory), keeping the mtime. `ToDir` takes no
directory-entry argument. -/
def Inode.ToDir (i : Inode) : Inode :=
  { i with isDir := true, Attributes := { Size := 4096, Mtime := i.Attributes.Mtime } }

/-- Modelled from the spec: `touch` refreshes the inode's mtime. -/
def Inode.touch (i : Inode) (now : Nat) : Inode :=
  { i with Attributes := { i.Attributes with Mtime := now } }

/-- Modelled from the spec: `getChildName` forms a child's full path; children
of the root are named bare. -/
def Inode.getChildName (i : Inode) (name : String) : String :=
  if i.Id = RootInodeID then name else i.FullName ++ "/" ++ name

/-- Modelled from the spec: `Ref` increments the inode's reference count. -/
def Inode.Ref (i : Inode) : Inode :=
  { i with refcnt := i.refcnt + 1 }

/-- Modelled from the spec: `findChildUnlocked` searches the parent's child map
for a child with the given name whose kind matches `wantDir`, returning its
inode id. -/
def Fusera.findChildUnlocked (fs : Fusera) (parent : Inode) (name : String)
    (wantDir : Bool) : Option Nat :=
  (parent.children.find? (fun p =>
    p.1 == name &&
      (match fs.getInode? p.2 with
       | some c => c.isDir == wantDir
       | none => false))).map Prod.snd

/-- Modelled from the spec: `findChildUnlockedFull` searches the parent's child
map by name alone, either kind. -/
def Inode.findChildUnlockedFull (parent : Inode) (name : String) : Option Nat :=
  (parent.children.find? (fun p => p.1 == name)).map Prod.snd

/-- `allocateInodeId` + `insertInode` of `sddp.go`: allocate the next inode id,
set it on the child, register the child in the parent's child map and in the
global table; returns the new state and the allocated id. -/
def Fusera.insertInode (fs : Fusera) (parentId : Nat) (ino : Inode) : Fusera × Nat :=
  let id := fs.nextInodeID
  let ino' := { ino with Id := id }
  let fs' := { fs with nextInodeID := id + 1 }
  let fs'' := fs'.updateInode parentId
    (fun p => { p with children := p.children ++ [(ino'.Name, id)] })
  ({ fs'' with inodes := (id, ino') :: fs''.inodes }, id)

/-- The merge branch of `insertInodeFromDirEntry` (sddp.go:428-441), applied to
the existing child: overwrite the content tag and storage class when the entry
carries them, record the entry's size as the known size, take the entry's
mtime, and stamp the attribute-refresh time. -/
def mergeEntryMeta (entry : DirHandleEntry) (now : Nat) (i : Inode) : Inode :=
  let j0 := match entry.ETag with
            | some e => { i with s3Metadata := mapSet i.s3Metadata "etag" e }
            | none => i
  let j1 := match entry.StorageClass with
            | some sc => { j0 with s3Metadata := mapSet j0.s3Metadata "storage-class" sc }
            | none => j0
  { j1 with KnownSize := some entry.Attributes.Size,
            Attributes := { j1.Attributes with Mtime := entry.Attributes.Mtime },
            AttrTime := now }

/-- The inode built by the create branch of `insertInodeFromDirEntry`
(sddp.go:406-422), before id allocation: a fresh inode of the entry's kind —
`ToDir` for a directory entry, the entry's attributes copied only for a file
entry — with the entry's optional remote metadata and refcount zero. -/
def newEntryInode (parent : Inode) (entry : DirHandleEntry) : Inode :=
  let path := parent.getChildName entry.Name
  let i0 := NewInode entry.Name path
  let i1 := if entry.DType = DirentType.DT_Directory then i0.ToDir
            else { i0 with Attributes := entry.Attributes }
  let i2 := match entry.ETag with
            | some e => { i1 with s3Metadata := mapSet i1.s3Metadata "etag" e }
            | none => i1
  let i3 := match entry.StorageClass with
            | some sc => { i2 with s3Metadata := mapSet i2.s3Metadata "storage-class" sc }
            | none => i2
  { i3 with refcnt := 0 }

/-- `insertInodeFromDirEntry` of `sddp.go`: find-or-create materialization of a
listing entry under `parentId`. Returns the new state and the child's inode id
(0 in the unreachable case of a missing parent, where the Go code would follow
a nil pointer). -/
def Fusera.insertInodeFromDirEntry (fs : Fusera) (parentId : Nat)
    (entry : DirHandleEntry) (now : Nat) : Fusera × Nat :=
  match fs.getInode? parentId with
  | none => (fs, 0)
  | some parent =>
    match fs.findChildUnlocked parent entry.Name (entry.DType = DirentType.DT_Directory) with
    | none => fs.insertInode parentId (newEntryInode parent entry)
    | some cid => (fs.updateInode cid (mergeEntryMeta entry now), cid)

/-- `fuseutil.Dirent`: the encoded form of one directory entry handed to the
kernel. The Go field `Type` is spelled `DType`. -/
structure Dirent where
  Name : String
  DType : DirentType
  Inode : Nat
  Offset : Nat
deriving DecidableEq

/-- `makeDirEntry` of `sddp.go`: encode a listing entry as a `Dirent`; note the
hard-coded inode number `RootInodeID + 1`. -/
def makeDirEntry (en : DirHandleEntry) : Dirent :=
  { Name := en.Name, DType := en.DType, Inode := RootInodeID + 1, Offset := en.Offset }

/-- Modelled from the spec: the encoded size of a dirent (fixed header plus the
name's bytes). -/
def direntSize (d : Dirent) : Nat := 24 + d.Name.length

/-- Modelled from the spec: `fuseutil.WriteDirent` writes an encoded entry into
the remaining destination space and returns the number of bytes written, or 0
when the destination cannot hold the whole encoded entry (no partial entry
encoding). -/
def WriteDirent (space : Nat) (d : Dirent) : Nat :=
  if direntSize d ≤ space then direntSize d else 0

/-- Modelled from the spec: `findChildMaxTime` is the maximum mtime over the
directory's children. -/
def Fusera.findChildMaxTime (fs : Fusera) (parent : Inode) : Nat :=
  parent.children.foldl
    (fun acc p => max acc (match fs.getInode? p.2 with
                           | some c => c.Attributes.Mtime
                           | none => 0)) 0

/-- Result of one `ReadDir` call: final state, `op.BytesRead`, the encoded
dirents written to `op.Dst`, whether the end-of-listing sentinel was reached,
and the final value of the `readFromS3` flag. -/
structure ReadDirOut where
  fs : Fusera
  BytesRead : Nat
  written : List Dirent
  reachedEnd : Bool
  readFromS3 : Bool

/-- The loop of `ReadDir` in `sddp.go`, iterating over the remaining listing
suffix `rest` with `space` bytes of destination left: a `none` from the cursor
(end of `rest`) updates `DirTime` and the directory mtime when `readFromS3` is
set; an entry with the zero inode marker is materialized first; the entry is
then encoded, a zero write ending the call early. -/
def Fusera.readDirLoop (fs : Fusera) (dirId : Nat) (rest : List DirHandleEntry)
    (space : Nat) (readFromS3 : Bool) (now : Nat) : ReadDirOut :=
  match rest with
  | [] =>
    let fs' := if readFromS3 then
        fs.updateInode dirId (fun d =>
          { d with DirTime := now,
                   Attributes := { d.Attributes with Mtime := fs.findChildMaxTime d } })
      else fs
    { fs := fs', BytesRead := 0, written := [], reachedEnd := true, readFromS3 := readFromS3 }
  | e :: rest' =>
    let st := if e.Inode = 0 then ((fs.insertInodeFromDirEntry dirId e now).1, true)
              else (fs, readFromS3)
    let d := makeDirEntry e
    let n := WriteDirent space d
    if n = 0 then
      { fs := st.1, BytesRead := 0, written := [], reachedEnd := false, readFromS3 := st.2 }
    else
      let out := st.1.readDirLoop dirId rest' (space - n) st.2 now
      { out with BytesRead := n + out.BytesRead, written := d :: out.written }

/-- `ReadDir` of `sddp.go`: resolve the handle (a missing handle panics, hence
`none`), then run the loop from `offset` with an initially clear `readFromS3`
flag and `dstLen` bytes of destination. -/
def Fusera.ReadDir (fs : Fusera) (handle offset dstLen now : Nat) : Option ReadDirOut :=
  match fs.dirHandles.lookup handle with
  | none => none
  | some dh => some (fs.readDirLoop dh.inodeId (dh.listing.drop offset) dstLen false now)

/-- Error values surfaced by the embedded operations: `enoent` is
`fuse.ENOENT`, `erange` is `syscall.ERANGE`, `enodata` the missing-xattr error
of the inode's xattr accessor, and `panicked` a Go `panic`
(`getInodeOrDie` on an unknown id). -/
inductive OpErr where
  | enoent
  | erange
  | enodata
  | panicked
deriving DecidableEq

/-- The `op.Entry` fields filled in by a successful `LookUpInode`. -/
structure ChildEntryOut where
  Child : Nat
  Attributes : InodeAttributes
  AttributesExpiration : Nat
  EntryExpiration : Nat
deriving DecidableEq

/-- Modelled from the spec: `InflateAttributes` returns the inode's attribute
snapshot for the kernel reply. -/
def Inode.InflateAttributes (i : Inode) : InodeAttributes := i.Attributes

/-- `LookUpInode` of `sddp.go`: resolve the parent (panic when unknown), search
its child map by name; on a hit increment the child's refcount and reply with
its id, attributes and the two TTL expirations; on a miss fail with `ENOENT`.
The `panicked` result for an unresolvable child id cannot occur when the child
map is consistent with the table. -/
def Fusera.LookUpInode (fs : Fusera) (parentId : Nat) (name : String) (now : Nat) :
    Fusera × Except OpErr ChildEntryOut :=
  match fs.getInode? parentId with
  | none => (fs, .error .panicked)
  | some parent =>
    match parent.findChildUnlockedFull name with
    | none => (fs, .error .enoent)
    | some cid =>
      match fs.getInode? cid with
      | none => (fs, .error .panicked)
      | some child =>
        (fs.updateInode cid Inode.Ref,
         .ok { Child := child.Id,
               Attributes := child.InflateAttributes,
               AttributesExpiration := now + fs.flags.StatCacheTTL,
               EntryExpiration := now + fs.flags.TypeCacheTTL })

/-- `GetInodeAttributes` of `sddp.go`: an unknown id panics in `getInodeOrDie`;
otherwise the reply is the attribute snapshot and the expiration
`now + StatCacheTTL`. The inode's own attribute accessor is modelled from the
spec as an infallible snapshot. -/
def Fusera.GetInodeAttributes (fs : Fusera) (id now : Nat) :
    Except OpErr (InodeAttributes × Nat) :=
  match fs.getInode? id with
  | none => .error .panicked
  | some ino => .ok (ino.Attributes, now + fs.flags.StatCacheTTL)

/-- Modelled from the spec: the inode's single-xattr accessor reads the remote
metadata map; a missing name is the no-data error. -/
def Inode.GetXattrVal (i : Inode) (name : String) : Option String :=
  i.s3Metadata.lookup name

/-- Modelled from the spec: the inode's xattr-name enumeration lists the names
of the remote metadata map. -/
def Inode.ListXattrNames (i : Inode) : List String :=
  i.s3Metadata.map Prod.fst

/-- Observable outcome of a `GetXattr`/`ListXattr` call: the reported
`op.BytesRead`, the bytes actually written into `op.Dst` (in order), and the
error, if any. -/
structure XattrOut where
  BytesRead : Nat
  copied : String
  err : Option OpErr
deriving DecidableEq

/-- `GetXattr` of `sddp.go`: report the value's size; copy the value only when
the whole value fits in the destination, otherwise fail with `ERANGE` and copy
nothing. -/
def Fusera.GetXattr (fs : Fusera) (id : Nat) (name : String) (dstLen : Nat) : XattrOut :=
  match fs.getInode? id with
  | none => { BytesRead := 0, copied := "", err := some .panicked }
  | some ino =>
    match ino.GetXattrVal name with
    | none => { BytesRead := 0, copied := "", err := some .enodata }
    | some value =>
      if dstLen < value.length then
        { BytesRead := value.length, copied := "", err := some .erange }
      else
        { BytesRead := value.length, copied := value, err := none }

/-- The loop of `ListXattr` in `sddp.go`: each name needs `name.length + 1`
bytes (a trailing NUL); a name is copied at offset `ncopied` when it fits in
the remaining destination; `BytesRead` counts every name either way. Returns
`(ncopied, BytesRead, copied bytes)`. -/
def listXattrLoop (names : List String) (dstLen : Nat) (ncopied bytesRead : Nat)
    (copied : String) : Nat × Nat × String :=
  match names with
  | [] => (ncopied, bytesRead, copied)
  | name :: rest =>
    let nlen := name.length + 1
    if nlen ≤ dstLen - ncopied then
      listXattrLoop rest dstLen (ncopied + nlen) (bytesRead + nlen)
        (copied ++ name ++ "\x00")
    else
      listXattrLoop rest dstLen ncopied (bytesRead + nlen) copied

/-- `ListXattr` of `sddp.go`: run the copy loop over all names and fail with
`ERANGE` when not everything was copied. -/
def Fusera.ListXattr (fs : Fusera) (id : Nat) (dstLen : Nat) : XattrOut :=
  match fs.getInode? id with
  | none => { BytesRead := 0, copied := "", err := some .panicked }
  | some ino =>
    let r := listXattrLoop ino.ListXattrNames dstLen 0 0 ""
    { BytesRead := r.2.1, copied := r.2.2,
      err := if r.1 < r.2.1 then some .erange else none }

/-- `OpenDir` of `sddp.go`: the handle id is allocated from the shared counter
before the inode is resolved; an unknown inode then panics (`none`), with the
counter already advanced. The handle's cursor state (`listing`) is the cached
entry source the open directory will stream (modelled from the spec). -/
def Fusera.OpenDir (fs : Fusera) (inodeId : Nat) (listing : List DirHandleEntry) :
    Option (Fusera × Nat) :=
  let hid := fs.nextHandleID
  let fs' := { fs with nextHandleID := hid + 1 }
  match fs'.getInode? inodeId with
  | none => none
  | some _ =>
    some ({ fs' with
            dirHandles := (hid, { inodeId := inodeId, listing := listing }) :: fs'.dirHandles },
          hid)

/-- `OpenFile` of `sddp.go`: the inode is resolved first (an unknown inode
panics before any allocation), then a handle id is allocated from the shared
counter and the new file handle is registered. -/
def Fusera.OpenFile (fs : Fusera) (inodeId : Nat) : Option (Fusera × Nat) :=
  match fs.getInode? inodeId with
  | none => none
  | some _ =>
    let hid := fs.nextHandleID
    some ({ fs with
            nextHandleID := hid + 1,
            fileHandles := (hid, { inodeId := inodeId, dirty := false }) :: fs.fileHandles },
          hid)

/-- `ReleaseDirHandle` of `sddp.go`: drop the handle from the table. -/
def Fusera.ReleaseDirHandle (fs : Fusera) (h : Nat) : Fusera :=
  { fs with dirHandles := fs.dirHandles.filter (fun p => p.1 != h) }

/-- `ReleaseFileHandle` of `sddp.go`: drop the handle from the table. -/
def Fusera.ReleaseFileHandle (fs : Fusera) (h : Nat) : Fusera :=
  { fs with fileHandles := fs.fileHandles.filter (fun p => p.1 != h) }

/-- One file of the metadata payload (`nr.Accession.Files` element): name,
remote link, and the declared size as a decimal string. -/
structure NrFile where
  Name : String
  Link : String
  Size : String
deriving DecidableEq

/-- One accession of the metadata payload returned by the resolver. -/
structure Accession where
  ID : String
  Files : List NrFile
deriving DecidableEq

/-- `strconv.ParseUint(s, 10, 64)`: a nonempty all-digit string whose value
fits in 64 bits; anything else is a parse error. -/
def parseUint64 (s : String) : Option Nat :=
  if s.toList.isEmpty then none
  else if s.toList.all Char.isDigit then
    let v := s.toList.foldl (fun a c => a * 10 + (c.toNat - 48)) 0
    if v < 2 ^ 64 then some v else none
  else none

/-- The body of the inner loop of `NewFusera`: create a file inode under
`dirId`, parse the declared size (a parse failure aborts construction), attach
the initial dirty file handle, touch the directory, insert the inode and
register the handle under a freshly allocated handle id. -/
def Fusera.addFile (fs : Fusera) (dirId : Nat) (f : NrFile) (now : Nat) :
    Except String Fusera :=
  match fs.getInode? dirId with
  | none => .error "missing directory inode"
  | some dir =>
    let fullFileName := dir.getChildName f.Name
    let i0 := NewInode f.Name fullFileName
    let i1 := { i0 with Link := f.Link }
    match parseUint64 f.Size with
    | none => .error "failed to parse size into a uint64"
    | some u =>
      let i2 := { i1 with Attributes := { Size := u, Mtime := now }, fileHandles := 1 }
      let fs1 := fs.updateInode dirId (fun d => d.touch now)
      let r := fs1.insertInode dirId i2
      let hid := r.1.nextHandleID
      .ok { r.1 with
            nextHandleID := hid + 1,
            fileHandles := (hid, { inodeId := r.2, dirty := true }) :: r.1.fileHandles }

/-- The body of the outer loop of `NewFusera`: create the accession's directory
inode under the root, then add each of its files. -/
def Fusera.addAccession (fs : Fusera) (acc : Accession) (now : Nat) :
    Except String Fusera :=
  match fs.getInode? RootInodeID with
  | none => .error "missing root inode"
  | some root =>
    let fullDirName := root.getChildName acc.ID
    let dir := ((NewInode acc.ID fullDirName).ToDir).touch now
    let r := fs.insertInode RootInodeID dir
    acc.Files.foldlM (fun s f => Fusera.addFile s r.2 f now) r.1

/-- `NewFusera` of `sddp.go`, from the point where the resolver has produced
`payload`: build the root directory under the reserved id, then add one
directory per accession with its files; the result is the constructed
filesystem or a fatal construction error. -/
def NewFusera (flags : FlagStorage) (payload : List Accession) (now : Nat) :
    Except String Fusera :=
  let root0 := ((NewInode "" "").ToDir)
  let root1 := { root0 with
                 Id := RootInodeID,
                 Attributes := { root0.Attributes with Mtime := now } }
  let fs : Fusera := { flags := flags,
                       inodes := [(RootInodeID, root1)],
                       nextInodeID := RootInodeID + 1,
                       nextHandleID := 1 }
  payload.foldlM (fun s a => Fusera.addAccession s a now) fs

/-! ### Lock acquisition traces

The lock-ordering discipline is a property of the order in which each
operation's code acquires and releases the three lock scopes.  Each operation's
acquisition sequence is transcribed from `sddp.go` as a list of events; a
blocking call (a remote listing or fetch) is the event `blocked`.  `deferred`
unlocks appear at the return point in last-in-first-out order, as Go runs
them. -/

/-- One lock event: acquiring/releasing a per-inode lock (tagged with the
inode's id), the global table lock `fs.mu`, or a directory-handle lock; or the
execution of a call that may block. -/
inductive LockEv where
  | acqNode (i : Nat)
  | relNode (i : Nat)
  | acqFs
  | relFs
  | acqDh
  | relDh
  | blocked
deriving DecidableEq

/-- Whether one event is admissible while the table lock is (not) held: the
ordering discipline forbids taking a more specific lock, or blocking, while
the table lock is held. -/
def evOk : LockEv → Bool → Bool
  | .acqNode _, fsHeld => !fsHeld
  | .acqDh, fsHeld => !fsHeld
  | .blocked, fsHeld => !fsHeld
  | _, _ => true

/-- The table-lock state after one event. -/
def evFs : LockEv → Bool → Bool
  | .acqFs, _ => true
  | .relFs, _ => false
  | _, h => h

/-- A trace respects the discipline when every event is admissible in the
table-lock state it runs under. -/
def traceOk : List LockEv → Bool → Bool
  | [], _ => true
  | e :: rest, h => evOk e h && traceOk rest (evFs e h)

/-- The table-lock state after a whole trace. -/
def fsAfter : List LockEv → Bool → Bool
  | [], h => h
  | e :: rest, h => fsAfter rest (evFs e h)

/-- Lock trace of `LookUpInode` (sddp.go:339-353): resolve the parent under the
table lock, then parent lock, then the table lock nested inside it. -/
def lookUpInodeTrace (p : Nat) : List LockEv :=
  [.acqFs, .relFs, .acqNode p, .acqFs, .relFs, .relNode p]

/-- Lock trace of `insertInodeFromDirEntry` (sddp.go:400-443): parent lock
first; the create branch (`c = none`) then takes the table lock, the merge
branch (`c = some cid`) takes the existing child's lock instead; deferred
unlocks unwind in reverse order. -/
def insertInodeFromDirEntryTrace (p : Nat) (c : Option Nat) : List LockEv :=
  match c with
  | none => [.acqNode p, .acqFs, .relFs, .relNode p]
  | some cid => [.acqNode p, .acqNode cid, .relNode cid, .relNode p]

/-- Lock trace of `GetInodeAttributes` (sddp.go:263-277). -/
def getInodeAttributesTrace : List LockEv := [.acqFs, .relFs]

/-- Lock trace of `GetXattr` (sddp.go:279-298). -/
def getXattrTrace : List LockEv := [.acqFs, .relFs]

/-- Lock trace of `ListXattr` (sddp.go:300-328). -/
def listXattrTrace : List LockEv := [.acqFs, .relFs]

/-- Lock trace of `OpenDir` (sddp.go:376-397): two disjoint table-lock
sections. -/
def openDirTrace : List LockEv := [.acqFs, .relFs, .acqFs, .relFs]

/-- Lock trace of `OpenFile` (sddp.go:529-552). -/
def openFileTrace : List LockEv := [.acqFs, .relFs, .acqFs, .relFs]

/-- Lock trace of `ReleaseDirHandle` (sddp.go:513-527). -/
def releaseDirHandleTrace : List LockEv := [.acqFs, .relFs]

/-- Lock trace of `ReleaseFileHandle` (sddp.go:573-588). -/
def releaseFileHandleTrace : List LockEv := [.acqFs, .relFs]

/-- Lock trace of `ReadFile` (sddp.go:554-564): the handle is resolved under
the table lock, the remote-fetching read happens after it is released. -/
def readFileTrace : List LockEv := [.acqFs, .relFs, .blocked]

/-- One cursor step of the `ReadDir` loop (sddp.go:480-508): a `dh.ReadDir`
listing call (which may hit the remote listing source, hence `blocked`),
followed, when the entry carries the zero inode marker, by the events of
`insertInodeFromDirEntry` (`m = some c`); the end-sentinel read is a step with
`m = none`. -/
def readDirStepTrace (p : Nat) (m : Option (Option Nat)) : List LockEv :=
  .blocked :: (match m with
               | none => []
               | some c => insertInodeFromDirEntryTrace p c)

/-- Lock trace of `ReadDir` (sddp.go:459-511): handle resolution under the
table lock, then the handle's own lock around the whole loop. -/
def readDirTrace (p : Nat) (steps : List (Option (Option Nat))) : List LockEv :=
  [.acqFs, .relFs, .acqDh] ++ (steps.map (readDirStepTrace p)).flatten ++ [.relDh]

/-- One open operation for the handle-allocation model: open a directory (with
its listing source) or open a file. -/
inductive OpenOp where
  | dirOp (inodeId : Nat) (listing : List DirHandleEntry)
  | fileOp (inodeId : Nat)

/-- Run a sequence of `OpenDir`/`OpenFile` calls, collecting for each the table
it went to (`true` = directory-handle table) and the handle id it was given. -/
def runOpens : Fusera → List OpenOp → Option (Fusera × List (Bool × Nat))
  | fs, [] => some (fs, [])
  | fs, .dirOp i l :: rest =>
    match fs.OpenDir i l with
    | none => none
    | some r =>
      match runOpens r.1 rest with
      | none => none
      | some q => some (q.1, (true, r.2) :: q.2)
  | fs, .fileOp i :: rest =>
    match fs.OpenFile i with
    | none => none
    | some r =>
      match runOpens r.1 rest with
      | none => none
      | some q => some (q.1, (false, r.2) :: q.2)

/-- One kernel-facing state transition of the filesystem.  The read-only
operations (`StatFS`, `GetInodeAttributes`, `GetXattr`, `ListXattr`,
`ReadFile`, `SyncFile`) do not change the controller state and need no
transition. -/
inductive Step : Fusera → Fusera → Prop where
  | lookup (fs : Fusera) (pid : Nat) (name : String) (now : Nat) :
      Step fs (fs.LookUpInode pid name now).1
  | readdir (fs : Fusera) (h offset dstLen now : Nat) (out : ReadDirOut) :
      fs.ReadDir h offset dstLen now = some out → Step fs out.fs
  | opendir (fs : Fusera) (i : Nat) (l : List DirHandleEntry) (r : Fusera × Nat) :
      fs.OpenDir i l = some r → Step fs r.1
  | openfile (fs : Fusera) (i : Nat) (r : Fusera × Nat) :
      fs.OpenFile i = some r → Step fs r.1
  | releasedir (fs : Fusera) (h : Nat) : Step fs (fs.ReleaseDirHandle h)
  | releasefile (fs : Fusera) (h : Nat) : Step fs (fs.ReleaseFileHandle h)

/-- States reachable from a successful construction by any sequence of
operations. -/
inductive Reachable : Fusera → Prop where
  | init (flags : FlagStorage) (payload : List Accession) (now : Nat) (fs : Fusera) :
      NewFusera flags payload now = .ok fs → Reachable fs
  | step (fs fs' : Fusera) : Reachable fs → Step fs fs' → Reachable fs'

/-- The inode-table invariant: keys are listed newest first in strictly
decreasing order (so ids are unique and allocation order is strictly
increasing), every key lies between the root id and the allocator, and the
root id is bound to a directory inode carrying the root id. -/
def InvFS (fs : Fusera) : Prop :=
  List.Chain' (fun a b => b < a) fs.keys ∧
  (∀ k ∈ fs.keys, RootInodeID ≤ k ∧ k < fs.nextInodeID) ∧
  (∃ r, fs.getInode? RootInodeID = some r ∧ r.Id = RootInodeID ∧ r.isDir = true)

/-- A directory inode fit to be read from: present, not its own child, and
older than the allocator front. -/
def DirOk (fs : Fusera) (dirId : Nat) (d : Inode) : Prop :=
  fs.getInode? dirId = some d ∧ (∀ p ∈ d.children, p.2 ≠ dirId) ∧ dirId < fs.nextInodeID

/-- A file inode with the given name and size is in the table (below the
allocator front). -/
def FilePresent (fs : Fusera) (n : String) (u : Nat) : Prop :=
  ∃ id ino, id < fs.nextInodeID ∧ fs.getInode? id = some ino ∧
    ino.isDir = false ∧ ino.Name = n ∧ ino.Attributes.Size = u

/-- A directory inode is bound to `dirId` in the table (below the allocator
front). -/
def DirPresent (fs : Fusera) (dirId : Nat) : Prop :=
  ∃ d, dirId < fs.nextInodeID ∧ fs.getInode? dirId = some d ∧ d.isDir = true

/-! ### Concrete fixtures used by witnesses and counterexamples -/

/-- A concrete configuration. -/
def flC : FlagStorage := { StatCacheTTL := 10, TypeCacheTTL := 20 }

/-- A concrete root directory inode without children. -/
def rootC : Inode := { Id := RootInodeID, Name := "", FullName := "", isDir := true }

/-- A filesystem holding only the root. -/
def fsC : Fusera := { flags := flC, inodes := [(RootInodeID, rootC)], nextInodeID := 2 }

/-- A concrete file inode named "d". -/
def childC : Inode :=
  { Id := 2, Name := "d", FullName := "d", Attributes := ⟨7, 5⟩ }

/-- The root directory inode with the file child "d". -/
def rootLC : Inode := { rootC with children := [("d", 2)] }

/-- A filesystem where the root has the file child "d". -/
def fsL : Fusera :=
  { flags := flC,
    inodes := [(2, childC), (RootInodeID, rootLC)],
    nextInodeID := 3 }

/-- A concrete directory-kind listing entry with attributes `⟨7, 5⟩`, not yet
realized as an inode. -/
def entryDirC : DirHandleEntry :=
  { Name := "d", DType := .DT_Directory, Attributes := ⟨7, 5⟩, Inode := 0 }

/-- A concrete file-kind listing entry, not yet realized as an inode. -/
def entryFileC : DirHandleEntry :=
  { Name := "f1", DType := .DT_File, Attributes := ⟨3, 8⟩, Inode := 0, Offset := 1 }

/-- An inode carrying the two remote-metadata xattrs. -/
def inoXC : Inode :=
  { Id := 5, Name := "f", FullName := "f",
    s3Metadata := [("etag", "E"), ("storage-class", "STD")] }

/-- A filesystem holding `inoXC` under id 5. -/
def fsXC : Fusera := { flags := flC, inodes := [(5, inoXC)], nextInodeID := 6 }

/-- A concrete two-file accession payload with sizes "100" and "200". -/
def payC : List Accession :=
  [{ ID := "ACC1",
     Files := [{ Name := "a", Link := "l1", Size := "100" },
               { Name := "b", Link := "l2", Size := "200" }] }]

/-- A payload whose single file has an unparsable size. -/
def payBadC : List Accession :=
  [{ ID := "ACC1", Files := [{ Name := "a", Link := "l1", Size := "12x" }] }]

/-- The total xattr payload size `ListXattr` must report: one byte per name
character plus a NUL per name. -/
def xattrNamesSize (i : Inode) : Nat :=
  (i.ListXattrNames.map (fun s => s.length + 1)).sum

/-- A file-kind listing entry whose `(name, kind)` pair matches `childC`,
carrying fresh remote metadata. -/
def entryMergeC : DirHandleEntry :=
  { Name := "d", DType := .DT_File, Attributes := ⟨90, 44⟩,
    ETag := some "E2", StorageClass := some "S2", Inode := 2 }

/-- A filesystem with one open directory handle on the root, whose listing
holds the single unrealized entry `entryFileC`. -/
def fsRDC : Fusera :=
  { flags := flC, inodes := [(RootInodeID, rootC)], nextInodeID := 2,
    nextHandleID := 2,
    dirHandles := [(1, { inodeId := RootInodeID, listing := [entryFileC] })] }

/-- The outcome of reading that handle from offset 0 with a large buffer. -/
def outRDC : ReadDirOut :=
  fsRDC.readDirLoop RootInodeID [entryFileC] 100 false 9

/-- The state after `OpenFile` then `OpenDir` on the root of `fsC`. -/
def fsC6f : Fusera :=
  { fsC with
    nextHandleID := 3,
    fileHandles := [(1, { inodeId := RootInodeID, dirty := false })],
    dirHandles := [(2, { inodeId := RootInodeID, listing := [] })] }

/-- The filesystem constructed from the empty payload at tick 3. -/
def fsInitC : Fusera :=
  match NewFusera flC [] 3 with
  | .ok fs => fs
  | .error _ => fsC

/-- The filesystem constructed from `payC` at tick 3. -/
def fsPayC : Fusera :=
  match NewFusera flC payC 3 with
  | .ok fs => fs
  | .error _ => fsC

/-! ### Association-list lemmas -/

theorem lookup_cons {α : Type} (a : Nat) (x : α) (m : List (Nat × α)) (j : Nat) :
    ((a, x) :: m).lookup j = if j = a then some x else m.lookup j := by
  by_cases h : j = a
  · simp [List.lookup, h]
  · have hb : (j == a) = false := by simp [h]
    simp [List.lookup, hb, h]

theorem updA_cons {α : Type} (a : Nat) (b : α) (t : List (Nat × α)) (k : Nat)
    (f : α → α) :
    updA ((a, b) :: t) k f = (if a = k then (a, f b) else (a, b)) :: updA t k f := by
  by_cases h : a = k <;> simp [updA, h]

theorem lookup_updA {α : Type} (m : List (Nat × α)) (k j : Nat) (f : α → α) :
    (updA m k f).lookup j = if j = k then (m.lookup j).map f else m.lookup j := by
  induction m with
  | nil => simp [updA]
  | cons p t ih =>
    obtain ⟨a, b⟩ := p
    rw [updA_cons]
    by_cases hak : a = k
    · subst hak
      by_cases hja : j = a
      · subst hja
        simp [lookup_cons]
      · simp [lookup_cons, hja, ih]
    · by_cases hja : j = a
      · subst hja
        simp [lookup_cons, hak]
      · simp [lookup_cons, hak, hja, ih]

theorem keys_updA {α : Type} (m : List (Nat × α)) (k : Nat) (f : α → α) :
    (updA m k f).map Prod.fst = m.map Prod.fst := by
  induction m with
  | nil => simp [updA]
  | cons p t ih =>
    obtain ⟨a, b⟩ := p
    rw [updA_cons]
    by_cases h : a = k <;> simp [h, ih]

theorem mem_keys_of_lookup {α : Type} (m : List (Nat × α)) (k : Nat) (v : α)
    (h : m.lookup k = some v) : k ∈ m.map Prod.fst := by
  induction m with
  | nil => simp [List.lookup] at h
  | cons p t ih =>
    obtain ⟨a, b⟩ := p
    rw [lookup_cons] at h
    by_cases hk : k = a
    · simp [hk]
    · rw [if_neg hk] at h
      simp [ih h]

theorem getInode?_updateInode (fs : Fusera) (k j : Nat) (f : Inode → Inode) :
    (fs.updateInode k f).getInode? j =
      if j = k then (fs.getInode? j).map f else fs.getInode? j := by
  simp [Fusera.updateInode, Fusera.getInode?, lookup_updA]

theorem keys_updateInode (fs : Fusera) (k : Nat) (f : Inode → Inode) :
    (fs.updateInode k f).keys = fs.keys := by
  simp [Fusera.updateInode, Fusera.keys, keys_updA]

theorem nextInodeID_updateInode (fs : Fusera) (k : Nat) (f : Inode → Inode) :
    (fs.updateInode k f).nextInodeID = fs.nextInodeID := rfl

theorem lookup_cons_str {α : Type} (a : String) (x : α) (m : List (String × α))
    (j : String) :
    ((a, x) :: m).lookup j = if j = a then some x else m.lookup j := by
  by_cases h : j = a
  · simp [List.lookup, h]
  · have hb : (j == a) = false := by simp [h]
    simp [List.lookup, hb, h]

theorem lookup_mapSet (m : List (String × String)) (k v : String) :
    (mapSet m k v).lookup k = some v := by
  unfold mapSet
  by_cases h : (m.lookup k).isSome
  · rw [if_pos h]
    induction m with
    | nil => simp [List.lookup] at h
    | cons p t ih =>
      obtain ⟨a, b⟩ := p
      by_cases hak : a = k
      · subst hak
        simp [lookup_cons_str]
      · rw [lookup_cons_str] at h
        rw [if_neg (fun hh => hak hh.symm)] at h
        simp only [List.map]
        rw [if_neg hak, lookup_cons_str, if_neg (fun hh => hak hh.symm)]
        exact ih h
  · rw [if_neg h]
    induction m with
    | nil => simp [List.lookup]
    | cons p t ih =>
      obtain ⟨a, b⟩ := p
      rw [lookup_cons_str] at h
      by_cases hka : k = a
      · rw [if_pos hka] at h
        simp at h
      · rw [if_neg hka] at h
        rw [List.cons_append, lookup_cons_str, if_neg hka]
        exact ih h

theorem lookup_map_overwrite (t : List (String × String)) (k v k' : String)
    (h : k' ≠ k) :
    (t.map (fun p => if p.1 = k then (p.1, v) else p)).lookup k' = t.lookup k' := by
  induction t with
  | nil => simp
  | cons p t ih =>
    obtain ⟨a, b⟩ := p
    simp only [List.map_cons]
    by_cases hak : a = k
    · rw [if_pos hak, lookup_cons_str, lookup_cons_str]
      have hk'a : ¬ k' = a := fun he => h (he.trans hak)
      rw [if_neg hk'a, if_neg hk'a, ih]
    · rw [if_neg hak, lookup_cons_str, lookup_cons_str]
      by_cases hk'a : k' = a
      · rw [if_pos hk'a, if_pos hk'a]
      · rw [if_neg hk'a, if_neg hk'a, ih]

theorem lookup_append_single (t : List (String × String)) (k v k' : String)
    (h : k' ≠ k) : (t ++ [(k, v)]).lookup k' = t.lookup k' := by
  induction t with
  | nil => rw [List.nil_append, lookup_cons_str, if_neg h]
  | cons p t ih =>
    obtain ⟨a, b⟩ := p
    rw [List.cons_append, lookup_cons_str, lookup_cons_str]
    by_cases hk'a : k' = a
    · rw [if_pos hk'a, if_pos hk'a]
    · rw [if_neg hk'a, if_neg hk'a, ih]

theorem lookup_mapSet_ne (m : List (String × String)) (k v k' : String)
    (h : k' ≠ k) : (mapSet m k v).lookup k' = m.lookup k' := by
  unfold mapSet
  by_cases hs : (m.lookup k).isSome
  · rw [if_pos hs]
    exact lookup_map_overwrite m k v k' h
  · rw [if_neg hs]
    exact lookup_append_single m k v k' h

/-! ### Equation lemmas for the `ReadDir` loop -/

theorem readDirLoop_nil (fs : Fusera) (dirId space : Nat) (rfs : Bool) (now : Nat) :
    fs.readDirLoop dirId [] space rfs now =
      { fs := if rfs then
            fs.updateInode dirId (fun d =>
              { d with DirTime := now,
                       Attributes := { d.Attributes with
                                       Mtime := fs.findChildMaxTime d } })
          else fs,
        BytesRead := 0, written := [], reachedEnd := true, readFromS3 := rfs } := by
  cases rfs <;> simp [Fusera.readDirLoop]

theorem readDirLoop_cons_stop (fs : Fusera) (dirId : Nat) (e : DirHandleEntry)
    (rest : List DirHandleEntry) (space : Nat) (rfs : Bool) (now : Nat)
    (h0 : WriteDirent space (makeDirEntry e) = 0) :
    fs.readDirLoop dirId (e :: rest) space rfs now =
      { fs := if e.Inode = 0 then (fs.insertInodeFromDirEntry dirId e now).1 else fs,
        BytesRead := 0, written := [], reachedEnd := false,
        readFromS3 := if e.Inode = 0 then true else rfs } := by
  by_cases hi : e.Inode = 0 <;> simp [Fusera.readDirLoop, hi, h0]

theorem readDirLoop_cons_go (fs : Fusera) (dirId : Nat) (e : DirHandleEntry)
    (rest : List DirHandleEntry) (space : Nat) (rfs : Bool) (now : Nat)
    (h0 : WriteDirent space (makeDirEntry e) ≠ 0) :
    fs.readDirLoop dirId (e :: rest) space rfs now =
      (let fs1 := if e.Inode = 0 then (fs.insertInodeFromDirEntry dirId e now).1 else fs
       let rfs1 := if e.Inode = 0 then true else rfs
       let n := WriteDirent space (makeDirEntry e)
       let out := fs1.readDirLoop dirId rest (space - n) rfs1 now
       { out with BytesRead := n + out.BytesRead,
                  written := makeDirEntry e :: out.written }) := by
  by_cases hi : e.Inode = 0 <;> simp [Fusera.readDirLoop, hi, h0]

/-! ### Lock-trace lemmas -/

theorem traceOk_append (xs ys : List LockEv) (h : Bool) :
    traceOk (xs ++ ys) h = (traceOk xs h && traceOk ys (fsAfter xs h)) := by
  induction xs generalizing h with
  | nil => simp [traceOk, fsAfter]
  | cons e t ih => simp [traceOk, fsAfter, ih, Bool.and_assoc]

theorem fsAfter_append (xs ys : List LockEv) (h : Bool) :
    fsAfter (xs ++ ys) h = fsAfter ys (fsAfter xs h) := by
  induction xs generalizing h with
  | nil => simp [fsAfter]
  | cons e t ih => simp [fsAfter, ih]

theorem traceOk_flatten (L : List (List LockEv))
    (h : ∀ l ∈ L, traceOk l false = true ∧ fsAfter l false = false) :
    traceOk L.flatten false = true ∧ fsAfter L.flatten false = false := by
  induction L with
  | nil => exact ⟨rfl, rfl⟩
  | cons x t ih =>
    have hx := h x (by simp)
    have ht := ih (fun l hl => h l (by simp [hl]))
    rw [List.flatten_cons]
    constructor
    · rw [traceOk_append, hx.1, hx.2, ht.1]
      rfl
    · rw [fsAfter_append, hx.2, ht.2]

theorem readDirStepTrace_ok (p : Nat) (m : Option (Option Nat)) :
    traceOk (readDirStepTrace p m) false = true ∧
      fsAfter (readDirStepTrace p m) false = false := by
  rcases m with _ | c
  · exact ⟨rfl, rfl⟩
  · rcases c with _ | cid <;> exact ⟨rfl, rfl⟩

/-- C10: every operation of `sddp.go` that takes both a per-inode (or
directory-handle) lock and the table lock takes the more specific lock first —
equivalently, no specific lock is acquired while the table lock is held — and
the table lock is never held across a blocking remote call, for every
acquisition trace the code can produce. -/
theorem C10_lock_ordering :
    (∀ (p : Nat) (steps : List (Option (Option Nat))),
       traceOk (readDirTrace p steps) false = true) ∧
    (∀ p : Nat, traceOk (lookUpInodeTrace p) false = true) ∧
    (∀ (p : Nat) (c : Option Nat),
       traceOk (insertInodeFromDirEntryTrace p c) false = true) ∧
    traceOk getInodeAttributesTrace false = true ∧
    traceOk getXattrTrace false = true ∧
    traceOk listXattrTrace false = true ∧
    traceOk openDirTrace false = true ∧
    traceOk openFileTrace false = true ∧
    traceOk readFileTrace false = true ∧
    traceOk releaseDirHandleTrace false = true ∧
    traceOk releaseFileHandleTrace false = true := by
  refine ⟨?_, ?_, ?_, rfl, rfl, rfl, rfl, rfl, rfl, rfl, rfl⟩
  · intro p steps
    have hall : ∀ l ∈ steps.map (readDirStepTrace p),
        traceOk l false = true ∧ fsAfter l false = false := by
      intro l hl
      rw [List.mem_map] at hl
      obtain ⟨m, _, rfl⟩ := hl
      exact readDirStepTrace_ok p m
    have hj := traceOk_flatten _ hall
    unfold readDirTrace
    rw [traceOk_append, traceOk_append]
    rw [show fsAfter [LockEv.acqFs, LockEv.relFs, LockEv.acqDh] false = false from rfl]
    rw [hj.1, fsAfter_append]
    rw [show fsAfter [LockEv.acqFs, LockEv.relFs, LockEv.acqDh] false = false from rfl]
    rw [hj.2]
    rfl
  · intro p
    rfl
  · intro p c
    rcases c with _ | cid <;> rfl

/-- C9: every directory entry `ReadDir` encodes for the caller carries the
hard-coded inode number `RootInodeID + 1`, never the entry's real inode id. -/
theorem C9_dirent_inode_hardcoded
    (fs : Fusera) (handle offset dstLen now : Nat) (out : ReadDirOut)
    (h : fs.ReadDir handle offset dstLen now = some out) :
    ∀ d ∈ out.written, d.Inode = RootInodeID + 1 := by
  have hloop : ∀ (rest : List DirHandleEntry) (g : Fusera) (dirId space : Nat)
      (rfs : Bool) (tick : Nat),
      ∀ d ∈ (g.readDirLoop dirId rest space rfs tick).written,
        d.Inode = RootInodeID + 1 := by
    intro rest
    induction rest with
    | nil =>
      intro g dirId space rfs tick d hd
      rw [readDirLoop_nil] at hd
      simp at hd
    | cons e rest' ih =>
      intro g dirId space rfs tick d hd
      by_cases h0 : WriteDirent space (makeDirEntry e) = 0
      · rw [readDirLoop_cons_stop g dirId e rest' space rfs tick h0] at hd
        simp at hd
      · rw [readDirLoop_cons_go g dirId e rest' space rfs tick h0] at hd
        simp only [List.mem_cons] at hd
        rcases hd with rfl | hd
        · rfl
        · exact ih _ _ _ _ _ d hd
  unfold Fusera.ReadDir at h
  rcases hdh : fs.dirHandles.lookup handle with _ | dh
  · rw [hdh] at h
    exact absurd h (by simp)
  · rw [hdh] at h
    have hv := hloop (dh.listing.drop offset) fs dh.inodeId dstLen false now
    have h2 : fs.readDirLoop dh.inodeId (dh.listing.drop offset) dstLen false now = out :=
      Option.some.inj h
    rw [← h2]
    exact hv

/-- C9 witness: reading the concrete handle of `fsRDC` encodes one entry, and
its inode field is the hard-coded `RootInodeID + 1`. -/
theorem C9_witness :
    fsRDC.ReadDir 1 0 100 9 = some outRDC ∧
      ∀ d ∈ outRDC.written, d.Inode = RootInodeID + 1 :=
  ⟨rfl, C9_dirent_inode_hardcoded fsRDC 1 0 100 9 outRDC rfl⟩

/-! ### `ListXattr` loop lemmas -/

theorem listXattrLoop_nil (dstLen nc br : Nat) (cp : String) :
    listXattrLoop [] dstLen nc br cp = (nc, br, cp) := rfl

theorem listXattrLoop_cons_fit (name : String) (rest : List String)
    (dstLen nc br : Nat) (cp : String) (hfit : name.length + 1 ≤ dstLen - nc) :
    listXattrLoop (name :: rest) dstLen nc br cp =
      listXattrLoop rest dstLen (nc + (name.length + 1)) (br + (name.length + 1))
        (cp ++ name ++ "\x00") := by
  simp [listXattrLoop, hfit]

theorem listXattrLoop_cons_nofit (name : String) (rest : List String)
    (dstLen nc br : Nat) (cp : String) (hfit : ¬ name.length + 1 ≤ dstLen - nc) :
    listXattrLoop (name :: rest) dstLen nc br cp =
      listXattrLoop rest dstLen nc (br + (name.length + 1)) cp := by
  simp [listXattrLoop, hfit]

theorem listXattrLoop_spec (names : List String) (dstLen : Nat) :
    ∀ (nc br : Nat) (cp : String), nc = cp.length → nc ≤ dstLen →
      (listXattrLoop names dstLen nc br cp).2.1 =
          br + (names.map (fun s => s.length + 1)).sum ∧
      (listXattrLoop names dstLen nc br cp).1 ≤ dstLen ∧
      (listXattrLoop names dstLen nc br cp).1 =
          (listXattrLoop names dstLen nc br cp).2.2.length := by
  induction names with
  | nil =>
    intro nc br cp h1 h2
    rw [listXattrLoop_nil]
    exact ⟨by simp, h2, h1⟩
  | cons name rest ih =>
    intro nc br cp h1 h2
    by_cases hfit : name.length + 1 ≤ dstLen - nc
    · rw [listXattrLoop_cons_fit name rest dstLen nc br cp hfit]
      have h1' : nc + (name.length + 1) = (cp ++ name ++ "\x00").length := by
        have hz : ("\x00" : String).length = 1 := rfl
        have hx : (cp ++ name ++ "\x00").length = cp.length + name.length + 1 := by
          simp [hz]
        omega
      have h2' : nc + (name.length + 1) ≤ dstLen := by omega
      have hrec := ih (nc + (name.length + 1)) (br + (name.length + 1))
        (cp ++ name ++ "\x00") h1' h2'
      refine ⟨?_, hrec.2.1, hrec.2.2⟩
      rw [hrec.1]
      simp [List.sum_cons]
      omega
    · rw [listXattrLoop_cons_nofit name rest dstLen nc br cp hfit]
      have hrec := ih nc (br + (name.length + 1)) cp h1 h2
      refine ⟨?_, hrec.2.1, hrec.2.2⟩
      rw [hrec.1]
      simp [List.sum_cons]
      omega

/-- C4 counterexample: on `fsXC` with a 5-byte destination, `ListXattr` fails
with `ERANGE` and reports the exact required 19 bytes, but it has copied the
name "etag" and its NUL into the destination: partial bytes are copied. -/
theorem C4_counterexample :
    fsXC.ListXattr 5 5 =
      { BytesRead := 19, copied := "etag\x00", err := some OpErr.erange } ∧
    ("etag\x00" : String) ≠ "" := by
  refine ⟨rfl, ?_⟩
  decide

/-- C4 (amended): an undersized destination always makes `GetXattr` and
`ListXattr` fail with `ERANGE` while the exact required size is still reported
in `BytesRead`; `GetXattr` then copies nothing, but `ListXattr` copies those
names that still fit (never more than the destination holds). -/
theorem C4_xattr_erange_amended :
    (∀ (fs : Fusera) (id : Nat) (name : String) (dstLen : Nat) (ino : Inode)
       (value : String),
       fs.getInode? id = some ino → ino.GetXattrVal name = some value →
       dstLen < value.length →
       fs.GetXattr id name dstLen =
         { BytesRead := value.length, copied := "", err := some OpErr.erange }) ∧
    (∀ (fs : Fusera) (id dstLen : Nat) (ino : Inode),
       fs.getInode? id = some ino → dstLen < xattrNamesSize ino →
       (fs.ListXattr id dstLen).err = some OpErr.erange ∧
       (fs.ListXattr id dstLen).BytesRead = xattrNamesSize ino ∧
       (fs.ListXattr id dstLen).copied.length ≤ dstLen) := by
  constructor
  · intro fs id name dstLen ino value h1 h2 h3
    simp [Fusera.GetXattr, h1, h2, h3]
  · intro fs id dstLen ino h1 h2
    have hspec := listXattrLoop_spec ino.ListXattrNames dstLen 0 0 "" rfl
      (Nat.zero_le _)
    have hbr : (listXattrLoop ino.ListXattrNames dstLen 0 0 "").2.1
        = xattrNamesSize ino := by
      rw [hspec.1]
      simp [xattrNamesSize]
    have herr : (listXattrLoop ino.ListXattrNames dstLen 0 0 "").1
        < (listXattrLoop ino.ListXattrNames dstLen 0 0 "").2.1 := by
      rw [hbr]
      exact Nat.lt_of_le_of_lt hspec.2.1 h2
    refine ⟨?_, ?_, ?_⟩
    · simp [Fusera.ListXattr, h1, herr]
    · simp [Fusera.ListXattr, h1, hbr]
    · have := hspec.2.2
      simp [Fusera.ListXattr, h1, ← this, hspec.2.1]

/-- C4 witness: on `fsXC` with a 0-byte destination, `GetXattr "etag"` fails
with `ERANGE`, copies nothing and reports 1 byte; `ListXattr` into 0 bytes
fails with `ERANGE` and reports the full 19 bytes. -/
theorem C4_witness :
    fsXC.GetXattr 5 "etag" 0 =
      { BytesRead := 1, copied := "", err := some OpErr.erange } ∧
    (fsXC.ListXattr 5 0).err = some OpErr.erange ∧
    (fsXC.ListXattr 5 0).BytesRead = xattrNamesSize inoXC := by
  refine ⟨?_, ?_, ?_⟩
  · exact C4_xattr_erange_amended.1 fsXC 5 "etag" 0 inoXC "E" rfl rfl (by decide)
  · exact (C4_xattr_erange_amended.2 fsXC 5 0 inoXC rfl (by decide)).1
  · exact (C4_xattr_erange_amended.2 fsXC 5 0 inoXC rfl (by decide)).2.1

/-- C5 counterexample: on `fsC` the id 99 is absent from the table, and
`GetInodeAttributes` panics (`getInodeOrDie`) instead of failing with
`NotFound`. -/
theorem C5_counterexample :
    fsC.GetInodeAttributes 99 5 = .error OpErr.panicked ∧
      OpErr.panicked ≠ OpErr.enoent := by
  refine ⟨rfl, ?_⟩
  decide

/-- C5 (amended): `GetInodeAttributes` on a known id returns the attribute
snapshot with expiration `now + StatCacheTTL`; on an unknown id the call does
not return `NotFound` — it panics, `getInodeOrDie` being a fatal invariant
violation. -/
theorem C5_getInodeAttributes_amended :
    (∀ (fs : Fusera) (id now : Nat) (ino : Inode),
       fs.getInode? id = some ino →
       fs.GetInodeAttributes id now = .ok (ino.Attributes, now + fs.flags.StatCacheTTL)) ∧
    (∀ (fs : Fusera) (id now : Nat),
       fs.getInode? id = none →
       fs.GetInodeAttributes id now = .error OpErr.panicked) := by
  constructor
  · intro fs id now ino h
    simp [Fusera.GetInodeAttributes, h]
  · intro fs id now h
    simp [Fusera.GetInodeAttributes, h]

/-- C5 witness: on `fsC`, the root's attributes come back with expiration
`5 + StatCacheTTL`. -/
theorem C5_witness :
    fsC.GetInodeAttributes RootInodeID 5 =
      .ok (rootC.Attributes, 5 + flC.StatCacheTTL) :=
  C5_getInodeAttributes_amended.1 fsC RootInodeID 5 rootC rfl

/-! ### Handle-counter lemmas -/

theorem openDir_handle (fs : Fusera) (i : Nat) (l : List DirHandleEntry)
    (r : Fusera × Nat) (h : fs.OpenDir i l = some r) :
    r.2 = fs.nextHandleID ∧ r.1.nextHandleID = fs.nextHandleID + 1 := by
  simp only [Fusera.OpenDir] at h
  split at h
  · exact absurd h (by simp)
  · have h2 := Option.some.inj h
    rw [← h2]
    exact ⟨rfl, rfl⟩

theorem openFile_handle (fs : Fusera) (i : Nat) (r : Fusera × Nat)
    (h : fs.OpenFile i = some r) :
    r.2 = fs.nextHandleID ∧ r.1.nextHandleID = fs.nextHandleID + 1 := by
  simp only [Fusera.OpenFile] at h
  split at h
  · exact absurd h (by simp)
  · have h2 := Option.some.inj h
    rw [← h2]
    exact ⟨rfl, rfl⟩

/-- C6 counterexample: on `fsC`, the sequence OpenDir, OpenFile, OpenDir hands
the directory-handle table the ids 1 and 3 — not consecutive, and visibly
advanced by the file-handle allocation in between: the two tables do not use
independent counters. -/
theorem C6_counterexample :
    ∃ fsf, runOpens fsC
        [OpenOp.dirOp RootInodeID [], OpenOp.fileOp RootInodeID,
         OpenOp.dirOp RootInodeID []]
      = some (fsf, [(true, 1), (false, 2), (true, 3)]) ∧ (3 : Nat) ≠ 1 + 1 := by
  refine ⟨_, rfl, ?_⟩
  decide

/-- C6 (amended): directory and file handles are allocated from one shared
`nextHandleID` counter: over any successful sequence of OpenDir/OpenFile
calls the issued ids are the consecutive values of that single counter
(hence unique across the two tables), but the ids within one table are not
consecutive when an open on the other table intervenes. -/
theorem C6_handleID_shared_counter_amended :
    ∀ (ops : List OpenOp) (fs fsf : Fusera) (hs : List (Bool × Nat)),
      runOpens fs ops = some (fsf, hs) →
      hs.map Prod.snd = List.range' fs.nextHandleID ops.length ∧
      fsf.nextHandleID = fs.nextHandleID + ops.length := by
  intro ops
  induction ops with
  | nil =>
    intro fs fsf hs h
    simp only [runOpens] at h
    have h2 := Option.some.inj h
    injection h2 with hfs hhs
    rw [← hfs, ← hhs]
    simp [List.range']
  | cons op rest ih =>
    intro fs fsf hs h
    cases op with
    | dirOp i l =>
      rcases ho : fs.OpenDir i l with _ | r
      · simp only [runOpens, ho] at h
        exact absurd h (by simp)
      · rcases hrun : runOpens r.1 rest with _ | q
        · simp only [runOpens, ho, hrun] at h
          exact absurd h (by simp)
        · simp only [runOpens, ho, hrun] at h
          have hinj := Option.some.inj h
          have hfs : q.1 = fsf := congrArg Prod.fst hinj
          have hhs : (true, r.2) :: q.2 = hs := congrArg Prod.snd hinj
          have hopen := openDir_handle fs i l r ho
          have hrec := ih r.1 q.1 q.2 (by rw [hrun])
          constructor
          · rw [← hhs]
            simp only [List.map_cons, List.length_cons]
            rw [hopen.1, hrec.1, hopen.2]
            rw [List.range'_succ]
          · rw [← hfs, hrec.2, hopen.2, List.length_cons]
            omega
    | fileOp i =>
      rcases ho : fs.OpenFile i with _ | r
      · simp only [runOpens, ho] at h
        exact absurd h (by simp)
      · rcases hrun : runOpens r.1 rest with _ | q
        · simp only [runOpens, ho, hrun] at h
          exact absurd h (by simp)
        · simp only [runOpens, ho, hrun] at h
          have hinj := Option.some.inj h
          have hfs : q.1 = fsf := congrArg Prod.fst hinj
          have hhs : (false, r.2) :: q.2 = hs := congrArg Prod.snd hinj
          have hopen := openFile_handle fs i r ho
          have hrec := ih r.1 q.1 q.2 (by rw [hrun])
          constructor
          · rw [← hhs]
            simp only [List.map_cons, List.length_cons]
            rw [hopen.1, hrec.1, hopen.2]
            rw [List.range'_succ]
          · rw [← hfs, hrec.2, hopen.2, List.length_cons]
            omega

/-- C6 witness: on `fsC`, OpenFile then OpenDir yields the shared-counter ids
1 and 2 in order. -/
theorem C6_witness :
    ([(false, 1), (true, 2)] : List (Bool × Nat)).map Prod.snd =
        List.range' fsC.nextHandleID 2 ∧
      fsC6f.nextHandleID = fsC.nextHandleID + 2 :=
  C6_handleID_shared_counter_amended
    [OpenOp.fileOp RootInodeID, OpenOp.dirOp RootInodeID []]
    fsC fsC6f [(false, 1), (true, 2)] rfl

/-- C3: `LookUpInode` with a known parent: a miss returns `ENOENT` with no side
effect at all; a hit increments exactly the child's refcount by one (all other
table entries, the key set, and the parent's child map unchanged) and replies
with the child's id, attributes, and the two TTL expirations; a repeated
lookup of the same pair returns the same child id. -/
theorem C3_lookUpInode_spec
    (fs : Fusera) (pid : Nat) (name : String) (now : Nat) (parent : Inode)
    (hp : fs.getInode? pid = some parent) :
    (parent.findChildUnlockedFull name = none →
       fs.LookUpInode pid name now = (fs, .error OpErr.enoent)) ∧
    (∀ cid child, parent.findChildUnlockedFull name = some cid →
       fs.getInode? cid = some child →
       fs.LookUpInode pid name now =
         (fs.updateInode cid Inode.Ref,
          .ok { Child := child.Id, Attributes := child.Attributes,
                AttributesExpiration := now + fs.flags.StatCacheTTL,
                EntryExpiration := now + fs.flags.TypeCacheTTL }) ∧
       (fs.updateInode cid Inode.Ref).getInode? cid = some child.Ref ∧
       child.Ref.refcnt = child.refcnt + 1 ∧
       (∀ j, j ≠ cid → (fs.updateInode cid Inode.Ref).getInode? j = fs.getInode? j) ∧
       (fs.updateInode cid Inode.Ref).keys = fs.keys ∧
       (∃ p2, (fs.updateInode cid Inode.Ref).getInode? pid = some p2 ∧
          p2.children = parent.children) ∧
       (∃ e2, ((fs.updateInode cid Inode.Ref).LookUpInode pid name now).2 = Except.ok e2 ∧
          e2.Child = child.Id)) := by
  constructor
  · intro hfind
    simp [Fusera.LookUpInode, hp, hfind]
  · intro cid child hfind hchild
    have hupd : ∀ j, (fs.updateInode cid Inode.Ref).getInode? j =
        if j = cid then (fs.getInode? j).map Inode.Ref else fs.getInode? j :=
      fun j => getInode?_updateInode fs cid j Inode.Ref
    have hcid : (fs.updateInode cid Inode.Ref).getInode? cid = some child.Ref := by
      rw [hupd cid, if_pos rfl, hchild]
      rfl
    have hpar : ∃ p2, (fs.updateInode cid Inode.Ref).getInode? pid = some p2 ∧
        p2.children = parent.children := by
      by_cases hpc : pid = cid
      · subst hpc
        refine ⟨parent.Ref, ?_, rfl⟩
        rw [hupd pid, if_pos rfl, hp]
        rfl
      · exact ⟨parent, by rw [hupd pid, if_neg hpc, hp], rfl⟩
    obtain ⟨p2, hp2, hch2⟩ := hpar
    have hfind2 : p2.findChildUnlockedFull name = some cid := by
      unfold Inode.findChildUnlockedFull at hfind ⊢
      rw [hch2]
      exact hfind
    refine ⟨?_, hcid, rfl, ?_, keys_updateInode fs cid Inode.Ref, ⟨p2, hp2, hch2⟩, ?_⟩
    · simp [Fusera.LookUpInode, hp, hfind, hchild, Inode.InflateAttributes]
    · intro j hj
      rw [hupd j, if_neg hj]
    · refine ⟨{ Child := child.Ref.Id, Attributes := child.Ref.InflateAttributes,
                AttributesExpiration := now + fs.flags.StatCacheTTL,
                EntryExpiration := now + fs.flags.TypeCacheTTL }, ?_, rfl⟩
      simp [Fusera.LookUpInode, hp2, hfind2, hcid, Inode.InflateAttributes]
      exact ⟨rfl, rfl⟩

/-- C3 witness: on `fsL`, looking up the absent name "zzz" fails with `ENOENT`
and leaves the state unchanged, while looking up "d" returns child id 2 with
expirations 17 and 27 and bumps only its refcount. -/
theorem C3_witness :
    fsL.LookUpInode RootInodeID "zzz" 7 = (fsL, .error OpErr.enoent) ∧
    fsL.LookUpInode RootInodeID "d" 7 =
      (fsL.updateInode 2 Inode.Ref,
       .ok { Child := childC.Id, Attributes := childC.Attributes,
             AttributesExpiration := 17, EntryExpiration := 27 }) :=
  ⟨(C3_lookUpInode_spec fsL RootInodeID "zzz" 7 rootLC rfl).1 rfl,
   ((C3_lookUpInode_spec fsL RootInodeID "d" 7 rootLC rfl).2 2 childC rfl rfl).1⟩

/-! ### Materialization lemmas -/

theorem mergeEntryMeta_basic (e : DirHandleEntry) (now : Nat) (i : Inode) :
    (mergeEntryMeta e now i).refcnt = i.refcnt ∧
    (mergeEntryMeta e now i).KnownSize = some e.Attributes.Size ∧
    (mergeEntryMeta e now i).Attributes.Mtime = e.Attributes.Mtime ∧
    (mergeEntryMeta e now i).Attributes.Size = i.Attributes.Size ∧
    (mergeEntryMeta e now i).AttrTime = now ∧
    (mergeEntryMeta e now i).Id = i.Id ∧
    (mergeEntryMeta e now i).isDir = i.isDir ∧
    (mergeEntryMeta e now i).children = i.children ∧
    (mergeEntryMeta e now i).Name = i.Name ∧
    (mergeEntryMeta e now i).DirTime = i.DirTime := by
  rcases he : e.ETag with _ | et <;> rcases hsc : e.StorageClass with _ | sc <;>
    simp [mergeEntryMeta, he, hsc]

theorem mergeEntryMeta_etag (e : DirHandleEntry) (now : Nat) (i : Inode)
    (et : String) (h : e.ETag = some et) :
    (mergeEntryMeta e now i).s3Metadata.lookup "etag" = some et := by
  rcases hsc : e.StorageClass with _ | sc
  · simp only [mergeEntryMeta, h, hsc]
    exact lookup_mapSet _ _ _
  · simp only [mergeEntryMeta, h, hsc]
    rw [lookup_mapSet_ne _ _ _ _ (by decide)]
    exact lookup_mapSet _ _ _

theorem mergeEntryMeta_storageClass (e : DirHandleEntry) (now : Nat) (i : Inode)
    (sc : String) (h : e.StorageClass = some sc) :
    (mergeEntryMeta e now i).s3Metadata.lookup "storage-class" = some sc := by
  rcases he : e.ETag with _ | et <;>
    simp only [mergeEntryMeta, h, he] <;>
    exact lookup_mapSet _ _ _

theorem newEntryInode_basic (parent : Inode) (e : DirHandleEntry) :
    (newEntryInode parent e).refcnt = 0 ∧
    (newEntryInode parent e).Name = e.Name ∧
    (e.DType = DirentType.DT_File →
       (newEntryInode parent e).isDir = false ∧
       (newEntryInode parent e).Attributes = e.Attributes) ∧
    (e.DType = DirentType.DT_Directory →
       (newEntryInode parent e).isDir = true ∧
       (newEntryInode parent e).Attributes.Size = 4096) := by
  rcases hd : e.DType <;> rcases he : e.ETag with _ | et <;>
    rcases hsc : e.StorageClass with _ | sc <;>
    simp [newEntryInode, hd, he, hsc, NewInode, Inode.ToDir]

/-- C1 counterexample: materializing the unrealized directory entry `entryDirC`
(declared attributes `⟨7, 5⟩`) under the root of `fsC` creates inode 2 whose
attributes are the directory defaults, not the entry's attributes — `ToDir`
takes no entry, so a directory entry's attributes are never copied. -/
theorem C1_counterexample :
    ∃ ino, (fsC.insertInodeFromDirEntry RootInodeID entryDirC 9).1.getInode? 2 =
        some ino ∧ ino.Attributes ≠ entryDirC.Attributes := by
  refine ⟨_, rfl, ?_⟩
  decide

/-- C1 (amended): materializing a listing entry under a known parent either
merges into the existing `(name, kind)` child — no new inode, key set,
allocator and refcount unchanged, content tag and storage class overwritten
when the entry carries them, the entry's size recorded as the known size, the
entry's mtime taken, the refresh timestamp stamped, all other table entries
untouched — or, when no such child exists, inserts a fresh inode of the
entry's kind with refcount zero into the parent's child map and the table
under the next id; its attributes are copied from the entry only for a file
entry, while a directory entry gets directory defaults. -/
theorem C1_insertInodeFromDirEntry_amended
    (fs : Fusera) (pid : Nat) (e : DirHandleEntry) (now : Nat) (parent : Inode)
    (hp : fs.getInode? pid = some parent) (hpid : pid ≠ fs.nextInodeID) :
    (∀ cid child,
       fs.findChildUnlocked parent e.Name (e.DType = DirentType.DT_Directory) = some cid →
       fs.getInode? cid = some child →
       fs.insertInodeFromDirEntry pid e now =
         (fs.updateInode cid (mergeEntryMeta e now), cid) ∧
       (fs.updateInode cid (mergeEntryMeta e now)).keys = fs.keys ∧
       (fs.updateInode cid (mergeEntryMeta e now)).nextInodeID = fs.nextInodeID ∧
       (fs.updateInode cid (mergeEntryMeta e now)).getInode? cid =
         some (mergeEntryMeta e now child) ∧
       (mergeEntryMeta e now child).refcnt = child.refcnt ∧
       (mergeEntryMeta e now child).KnownSize = some e.Attributes.Size ∧
       (mergeEntryMeta e now child).Attributes.Mtime = e.Attributes.Mtime ∧
       (mergeEntryMeta e now child).Attributes.Size = child.Attributes.Size ∧
       (mergeEntryMeta e now child).AttrTime = now ∧
       (∀ et, e.ETag = some et →
          (mergeEntryMeta e now child).s3Metadata.lookup "etag" = some et) ∧
       (∀ sc, e.StorageClass = some sc →
          (mergeEntryMeta e now child).s3Metadata.lookup "storage-class" = some sc) ∧
       (∀ j, j ≠ cid →
          (fs.updateInode cid (mergeEntryMeta e now)).getInode? j = fs.getInode? j)) ∧
    (fs.findChildUnlocked parent e.Name (e.DType = DirentType.DT_Directory) = none →
       (fs.insertInodeFromDirEntry pid e now).2 = fs.nextInodeID ∧
       (fs.insertInodeFromDirEntry pid e now).1.nextInodeID = fs.nextInodeID + 1 ∧
       (∃ ino, (fs.insertInodeFromDirEntry pid e now).1.getInode? fs.nextInodeID =
            some ino ∧
          ino.Id = fs.nextInodeID ∧
          ino.Name = e.Name ∧
          ino.refcnt = 0 ∧
          (e.DType = DirentType.DT_File →
             ino.isDir = false ∧ ino.Attributes = e.Attributes) ∧
          (e.DType = DirentType.DT_Directory →
             ino.isDir = true ∧ ino.Attributes.Size = 4096)) ∧
       (∃ parent2,
          (fs.insertInodeFromDirEntry pid e now).1.getInode? pid = some parent2 ∧
          parent2.children = parent.children ++ [(e.Name, fs.nextInodeID)])) := by
  constructor
  · intro cid child hfind hchild
    have heq : fs.insertInodeFromDirEntry pid e now =
        (fs.updateInode cid (mergeEntryMeta e now), cid) := by
      simp only [Fusera.insertInodeFromDirEntry, hp, hfind]
    have hb := mergeEntryMeta_basic e now child
    refine ⟨heq, keys_updateInode fs cid _, rfl, ?_,
      hb.1, hb.2.1, hb.2.2.1, hb.2.2.2.1, hb.2.2.2.2.1,
      fun et het => mergeEntryMeta_etag e now child et het,
      fun sc hsc => mergeEntryMeta_storageClass e now child sc hsc,
      fun j hj => by rw [getInode?_updateInode, if_neg hj]⟩
    rw [getInode?_updateInode, if_pos rfl, hchild]
    rfl
  · intro hfind
    have heq : fs.insertInodeFromDirEntry pid e now =
        fs.insertInode pid (newEntryInode parent e) := by
      simp only [Fusera.insertInodeFromDirEntry, hp, hfind]
    have hb := newEntryInode_basic parent e
    have hg : (fs.insertInode pid (newEntryInode parent e)).1.getInode? fs.nextInodeID
        = some { newEntryInode parent e with Id := fs.nextInodeID } := by
      simp only [Fusera.insertInode, Fusera.getInode?]
      rw [lookup_cons, if_pos rfl]
    have hgp : (fs.insertInode pid (newEntryInode parent e)).1.getInode? pid
        = some { parent with
                 children := parent.children ++ [(e.Name, fs.nextInodeID)] } := by
      simp only [Fusera.insertInode, Fusera.getInode?, Fusera.updateInode]
      rw [lookup_cons, if_neg hpid, lookup_updA, if_pos rfl]
      rw [show fs.inodes.lookup pid = some parent from hp]
      rw [show ({ newEntryInode parent e with Id := fs.nextInodeID } : Inode).Name
            = e.Name from hb.2.1]
      rfl
    refine ⟨by rw [heq]; rfl, by rw [heq]; rfl, ?_, ?_⟩
    · refine ⟨{ newEntryInode parent e with Id := fs.nextInodeID },
        by rw [heq]; exact hg, rfl, hb.2.1, hb.1, ?_, ?_⟩
      · intro hf
        exact (hb.2.2.1) hf
      · intro hd
        exact (hb.2.2.2) hd
    · exact ⟨_, by rw [heq]; exact hgp, rfl⟩

/-- C1 witness: merging `entryMergeC` into `fsL`, where the root already has
the matching file child "d" (inode 2): same id returned, table unchanged,
known size and mtime taken from the entry. -/
theorem C1_witness :
    fsL.insertInodeFromDirEntry RootInodeID entryMergeC 9 =
      (fsL.updateInode 2 (mergeEntryMeta entryMergeC 9), 2) ∧
    (mergeEntryMeta entryMergeC 9 childC).KnownSize =
      some entryMergeC.Attributes.Size ∧
    (mergeEntryMeta entryMergeC 9 childC).refcnt = childC.refcnt := by
  have happ := (C1_insertInodeFromDirEntry_amended fsL RootInodeID entryMergeC 9
    rootLC rfl (by decide)).1 2 childC rfl rfl
  exact ⟨happ.1, happ.2.2.2.2.2.1, happ.2.2.2.2.1⟩

/-! ### `ReadDir` freshness lemmas -/

theorem findChild_id_ne (fs : Fusera) (d : Inode) (name : String) (w : Bool)
    (cid dirId : Nat) (hch : ∀ p ∈ d.children, p.2 ≠ dirId)
    (hfind : fs.findChildUnlocked d name w = some cid) : cid ≠ dirId := by
  unfold Fusera.findChildUnlocked at hfind
  rcases hq : d.children.find? (fun p =>
      p.1 == name &&
        (match fs.getInode? p.2 with
         | some c => c.isDir == w
         | none => false)) with _ | q
  · rw [hq] at hfind
    exact absurd hfind (by simp)
  · rw [hq] at hfind
    have hmem := List.mem_of_find?_eq_some hq
    have : q.2 = cid := Option.some.inj hfind
    rw [← this]
    exact hch q hmem

theorem insertInodeFromDirEntry_dirOk
    (fs : Fusera) (dirId : Nat) (e : DirHandleEntry) (now : Nat) (d : Inode)
    (hd : fs.getInode? dirId = some d)
    (hch : ∀ p ∈ d.children, p.2 ≠ dirId)
    (hlt : dirId < fs.nextInodeID) :
    ∃ d', (fs.insertInodeFromDirEntry dirId e now).1.getInode? dirId = some d' ∧
      d'.DirTime = d.DirTime ∧
      d'.Attributes.Mtime = d.Attributes.Mtime ∧
      (∀ p ∈ d'.children, p.2 ≠ dirId) ∧
      dirId < (fs.insertInodeFromDirEntry dirId e now).1.nextInodeID := by
  rcases hfind : fs.findChildUnlocked d e.Name (e.DType = DirentType.DT_Directory)
    with _ | cid
  · have heq : fs.insertInodeFromDirEntry dirId e now =
        fs.insertInode dirId (newEntryInode d e) := by
      simp only [Fusera.insertInodeFromDirEntry, hd, hfind]
    rw [heq]
    have hne : dirId ≠ fs.nextInodeID := Nat.ne_of_lt hlt
    refine ⟨{ d with children :=
        d.children ++ [((newEntryInode d e).Name, fs.nextInodeID)] }, ?_, rfl, rfl, ?_, ?_⟩
    · simp only [Fusera.insertInode, Fusera.getInode?, Fusera.updateInode]
      rw [lookup_cons, if_neg hne, lookup_updA, if_pos rfl,
        show fs.inodes.lookup dirId = some d from hd]
      rfl
    · intro p hp
      rw [List.mem_append] at hp
      rcases hp with hp | hp
      · exact hch p hp
      · rw [List.mem_singleton] at hp
        rw [hp]
        exact Ne.symm hne
    · exact Nat.lt_succ_of_lt hlt
  · have heq : fs.insertInodeFromDirEntry dirId e now =
        (fs.updateInode cid (mergeEntryMeta e now), cid) := by
      simp only [Fusera.insertInodeFromDirEntry, hd, hfind]
    rw [heq]
    have hcid : cid ≠ dirId :=
      findChild_id_ne fs d e.Name _ cid dirId hch hfind
    refine ⟨d, ?_, rfl, rfl, hch, hlt⟩
    rw [getInode?_updateInode, if_neg (fun hq => hcid hq.symm), hd]

theorem foldMax_congr (fs1 fs2 : Fusera) (l : List (String × Nat))
    (h : ∀ p ∈ l, fs1.getInode? p.2 = fs2.getInode? p.2) :
    ∀ acc : Nat,
      l.foldl (fun acc p => max acc (match fs1.getInode? p.2 with
                                     | some c => c.Attributes.Mtime
                                     | none => 0)) acc =
      l.foldl (fun acc p => max acc (match fs2.getInode? p.2 with
                                     | some c => c.Attributes.Mtime
                                     | none => 0)) acc := by
  induction l with
  | nil => intro acc; rfl
  | cons q t ih =>
    intro acc
    simp only [List.foldl_cons]
    rw [h q (by simp)]
    exact ih (fun p hp => h p (by simp [hp])) _

theorem findChildMaxTime_congr (fs1 fs2 : Fusera) (d1 d2 : Inode)
    (hch : d1.children = d2.children)
    (h : ∀ p ∈ d2.children, fs1.getInode? p.2 = fs2.getInode? p.2) :
    fs1.findChildMaxTime d1 = fs2.findChildMaxTime d2 := by
  unfold Fusera.findChildMaxTime
  rw [hch]
  exact foldMax_congr fs1 fs2 d2.children h 0

theorem readDirLoop_nil_false (fs : Fusera) (dirId space now : Nat) :
    fs.readDirLoop dirId [] space false now =
      { fs := fs, BytesRead := 0, written := [], reachedEnd := true,
        readFromS3 := false } := by
  simp [Fusera.readDirLoop]

theorem readDirLoop_nil_true (fs : Fusera) (dirId space now : Nat) :
    fs.readDirLoop dirId [] space true now =
      { fs := fs.updateInode dirId (fun d =>
            { d with DirTime := now,
                     Attributes := { d.Attributes with
                                     Mtime := fs.findChildMaxTime d } }),
        BytesRead := 0, written := [], reachedEnd := true,
        readFromS3 := true } := by
  simp [Fusera.readDirLoop]

theorem readDirLoop_spec (dirId now : Nat) (rest : List DirHandleEntry) :
    ∀ (fs : Fusera) (space : Nat) (rfs : Bool) (d : Inode),
      fs.getInode? dirId = some d →
      (∀ p ∈ d.children, p.2 ≠ dirId) →
      dirId < fs.nextInodeID →
      ∃ d', (fs.readDirLoop dirId rest space rfs now).fs.getInode? dirId = some d' ∧
        (((fs.readDirLoop dirId rest space rfs now).reachedEnd = true ∧
          (fs.readDirLoop dirId rest space rfs now).readFromS3 = true) →
           d'.DirTime = now ∧
           d'.Attributes.Mtime =
             (fs.readDirLoop dirId rest space rfs now).fs.findChildMaxTime d') ∧
        (((fs.readDirLoop dirId rest space rfs now).readFromS3 = false ∨
          (fs.readDirLoop dirId rest space rfs now).reachedEnd = false) →
           d'.DirTime = d.DirTime ∧ d'.Attributes.Mtime = d.Attributes.Mtime) ∧
        ((fs.readDirLoop dirId rest space rfs now).reachedEnd = true →
           (fs.readDirLoop dirId rest space rfs now).readFromS3 =
             (rfs || rest.any (fun e => e.Inode == 0))) := by
  induction rest with
  | nil =>
    intro fs space rfs d hd hch hlt
    cases rfs with
    | false =>
      rw [readDirLoop_nil_false]
      dsimp only
      refine ⟨d, hd, ?_, fun _ => ⟨rfl, rfl⟩, ?_⟩
      · intro hcontra
        exact absurd hcontra.2 (by simp)
      · intro _
        simp
    | true =>
      rw [readDirLoop_nil_true]
      dsimp only
      refine ⟨{ d with
                DirTime := now,
                Attributes := { d.Attributes with Mtime := fs.findChildMaxTime d } },
        ?_, ?_, ?_, ?_⟩
      · rw [getInode?_updateInode, if_pos rfl, hd]
        rfl
      · intro _
        refine ⟨rfl, ?_⟩
        show fs.findChildMaxTime d = _
        refine (findChildMaxTime_congr _ _ _ d rfl ?_).symm
        intro p hp
        rw [getInode?_updateInode, if_neg (hch p hp)]
      · intro hcontra
        rcases hcontra with hc | hc <;> exact absurd hc (by simp)
      · intro _
        simp
  | cons e rest' ih =>
    intro fs space rfs d hd hch hlt
    have hstep : ∃ d1,
        (if e.Inode = 0 then (fs.insertInodeFromDirEntry dirId e now).1 else fs).getInode?
            dirId = some d1 ∧
        d1.DirTime = d.DirTime ∧ d1.Attributes.Mtime = d.Attributes.Mtime ∧
        (∀ p ∈ d1.children, p.2 ≠ dirId) ∧
        dirId < (if e.Inode = 0 then (fs.insertInodeFromDirEntry dirId e now).1
                 else fs).nextInodeID := by
      by_cases hi : e.Inode = 0
      · rw [if_pos hi]
        exact insertInodeFromDirEntry_dirOk fs dirId e now d hd hch hlt
      · rw [if_neg hi]
        exact ⟨d, hd, rfl, rfl, hch, hlt⟩
    obtain ⟨d1, hd1, hdt1, hmt1, hch1, hlt1⟩ := hstep
    by_cases h0 : WriteDirent space (makeDirEntry e) = 0
    · rw [readDirLoop_cons_stop fs dirId e rest' space rfs now h0]
      dsimp only
      refine ⟨d1, hd1, ?_, fun _ => ⟨hdt1, hmt1⟩, ?_⟩
      · intro hcontra
        exact absurd hcontra.1 (by simp)
      · intro hcontra
        exact absurd hcontra (by simp)
    · rw [readDirLoop_cons_go fs dirId e rest' space rfs now h0]
      dsimp only
      obtain ⟨d', hg', hc1, hc2, hc3⟩ := ih
        (if e.Inode = 0 then (fs.insertInodeFromDirEntry dirId e now).1 else fs)
        (space - WriteDirent space (makeDirEntry e))
        (if e.Inode = 0 then true else rfs) d1 hd1 hch1 hlt1
      refine ⟨d', hg', hc1, ?_, ?_⟩
      · intro hz
        obtain ⟨ha, hb⟩ := hc2 hz
        exact ⟨ha.trans hdt1, hb.trans hmt1⟩
      · intro hz
        rw [hc3 hz]
        by_cases hi : e.Inode = 0
        · simp [hi]
        · have : (e.Inode == 0) = false := by simp [hi]
          simp [hi, this]

/-- C2: a `ReadDir` call updates the directory's listing timestamp (`DirTime`)
and its mtime only when it reaches the end-of-listing sentinel and at least one
entry of the call was not yet realized as an inode (`readFromS3`); the mtime is
then the maximum mtime over the directory's children in the resulting state; a
call that stops early because the destination cannot hold the next encoded
entry leaves both untouched. -/
theorem C2_readDir_listing_freshness
    (fs : Fusera) (handle offset dstLen now : Nat) (out : ReadDirOut)
    (dh : DirHandle) (d : Inode)
    (hh : fs.dirHandles.lookup handle = some dh)
    (hread : fs.ReadDir handle offset dstLen now = some out)
    (hd : fs.getInode? dh.inodeId = some d)
    (hch : ∀ p ∈ d.children, p.2 ≠ dh.inodeId)
    (hlt : dh.inodeId < fs.nextInodeID) :
    ∃ d', out.fs.getInode? dh.inodeId = some d' ∧
      ((out.reachedEnd = true ∧ out.readFromS3 = true) →
         d'.DirTime = now ∧ d'.Attributes.Mtime = out.fs.findChildMaxTime d') ∧
      ((out.readFromS3 = false ∨ out.reachedEnd = false) →
         d'.DirTime = d.DirTime ∧ d'.Attributes.Mtime = d.Attributes.Mtime) ∧
      (out.reachedEnd = true →
         out.readFromS3 = (dh.listing.drop offset).any (fun e => e.Inode == 0)) := by
  have hout : out = fs.readDirLoop dh.inodeId (dh.listing.drop offset) dstLen false now := by
    unfold Fusera.ReadDir at hread
    rw [hh] at hread
    exact (Option.some.inj hread).symm
  subst hout
  obtain ⟨d', hg, hc1, hc2, hc3⟩ := readDirLoop_spec dh.inodeId now
    (dh.listing.drop offset) fs dstLen false d hd hch hlt
  refine ⟨d', hg, hc1, hc2, ?_⟩
  intro hz
  rw [hc3 hz]
  simp

/-- C2 witness: on `fsRDC` (one unrealized entry, large buffer) the call
reaches the end with `readFromS3` set, so the directory's `DirTime` is set to
the call's tick and its mtime becomes the maximum child mtime. -/
theorem C2_witness :
    ∃ d', outRDC.fs.getInode? 1 = some d' ∧
      ((outRDC.reachedEnd = true ∧ outRDC.readFromS3 = true) →
         d'.DirTime = 9 ∧ d'.Attributes.Mtime = outRDC.fs.findChildMaxTime d') ∧
      ((outRDC.readFromS3 = false ∨ outRDC.reachedEnd = false) →
         d'.DirTime = rootC.DirTime ∧
         d'.Attributes.Mtime = rootC.Attributes.Mtime) ∧
      (outRDC.reachedEnd = true →
         outRDC.readFromS3 = ([entryFileC].drop 0).any (fun e => e.Inode == 0)) :=
  C2_readDir_listing_freshness fsRDC 1 0 100 9 outRDC
    { inodeId := RootInodeID, listing := [entryFileC] } rootC
    rfl rfl rfl (by simp [rootC]) (by decide)

/-! ### Inode-table invariant preservation -/

theorem invFS_of_eq (fs fs' : Fusera) (hin : fs'.inodes = fs.inodes)
    (hni : fs'.nextInodeID = fs.nextInodeID) (h : InvFS fs) : InvFS fs' := by
  have hk : fs'.keys = fs.keys := by
    unfold Fusera.keys
    rw [hin]
  have hg : ∀ j, fs'.getInode? j = fs.getInode? j := fun j => by
    unfold Fusera.getInode?
    rw [hin]
  obtain ⟨h1, h2, h3⟩ := h
  refine ⟨hk ▸ h1, ?_, ?_⟩
  · intro k hkm
    rw [hk] at hkm
    rw [hni]
    exact h2 k hkm
  · obtain ⟨r, hr, hid, hdir⟩ := h3
    exact ⟨r, (hg RootInodeID).trans hr, hid, hdir⟩

theorem invFS_updateInode (fs : Fusera) (id : Nat) (f : Inode → Inode)
    (hf : ∀ i, (f i).Id = i.Id ∧ (f i).isDir = i.isDir)
    (h : InvFS fs) : InvFS (fs.updateInode id f) := by
  obtain ⟨h1, h2, h3⟩ := h
  refine ⟨?_, ?_, ?_⟩
  · rw [keys_updateInode]
    exact h1
  · intro k hk
    rw [keys_updateInode] at hk
    exact h2 k hk
  · obtain ⟨r, hr, hid, hdir⟩ := h3
    rw [getInode?_updateInode]
    by_cases hq : RootInodeID = id
    · rw [if_pos hq, hr]
      exact ⟨f r, rfl, (hf r).1.trans hid, (hf r).2.trans hdir⟩
    · rw [if_neg hq]
      exact ⟨r, hr, hid, hdir⟩

theorem invFS_insertInode (fs : Fusera) (pid : Nat) (ino : Inode)
    (h : InvFS fs) : InvFS (fs.insertInode pid ino).1 := by
  obtain ⟨h1, h2, h3⟩ := h
  obtain ⟨r, hr, hid, hdir⟩ := h3
  have hrmem : RootInodeID ∈ fs.keys := mem_keys_of_lookup fs.inodes RootInodeID r hr
  have hroot_lt : RootInodeID < fs.nextInodeID := (h2 _ hrmem).2
  have hkeys : (fs.insertInode pid ino).1.keys = fs.nextInodeID :: fs.keys := by
    simp only [Fusera.insertInode, Fusera.keys, Fusera.updateInode]
    rw [List.map_cons, keys_updA]
  have hne : RootInodeID ≠ fs.nextInodeID := Nat.ne_of_lt hroot_lt
  refine ⟨?_, ?_, ?_⟩
  · rw [hkeys, List.chain'_cons']
    refine ⟨?_, h1⟩
    intro b hb
    have hbmem : b ∈ fs.keys := List.mem_of_mem_head? hb
    exact (h2 b hbmem).2
  · intro k hk
    rw [hkeys] at hk
    rcases List.mem_cons.mp hk with rfl | hk
    · exact ⟨Nat.le_of_lt hroot_lt, Nat.lt_succ_self _⟩
    · have hb := h2 k hk
      exact ⟨hb.1, Nat.lt_succ_of_lt hb.2⟩
  · by_cases hq : RootInodeID = pid
    · refine ⟨{ r with children :=
          r.children ++ [(({ ino with Id := fs.nextInodeID } : Inode).Name,
                          fs.nextInodeID)] }, ?_, hid, hdir⟩
      simp only [Fusera.insertInode, Fusera.getInode?, Fusera.updateInode]
      rw [lookup_cons, if_neg hne, lookup_updA, if_pos hq,
        show fs.inodes.lookup RootInodeID = some r from hr]
      rfl
    · refine ⟨r, ?_, hid, hdir⟩
      simp only [Fusera.insertInode, Fusera.getInode?, Fusera.updateInode]
      rw [lookup_cons, if_neg hne, lookup_updA, if_neg hq]
      exact hr

theorem invFS_insertInodeFromDirEntry (fs : Fusera) (pid : Nat)
    (e : DirHandleEntry) (now : Nat) (h : InvFS fs) :
    InvFS (fs.insertInodeFromDirEntry pid e now).1 := by
  rcases hp : fs.getInode? pid with _ | parent
  · simp only [Fusera.insertInodeFromDirEntry, hp]
    exact h
  · rcases hf : fs.findChildUnlocked parent e.Name (e.DType = DirentType.DT_Directory)
      with _ | cid
    · simp only [Fusera.insertInodeFromDirEntry, hp, hf]
      exact invFS_insertInode fs pid _ h
    · simp only [Fusera.insertInodeFromDirEntry, hp, hf]
      refine invFS_updateInode fs cid _ ?_ h
      intro i
      have hb := mergeEntryMeta_basic e now i
      exact ⟨hb.2.2.2.2.2.1, hb.2.2.2.2.2.2.1⟩

theorem invFS_readDirLoop (dirId now : Nat) (rest : List DirHandleEntry) :
    ∀ (fs : Fusera) (space : Nat) (rfs : Bool), InvFS fs →
      InvFS (fs.readDirLoop dirId rest space rfs now).fs := by
  induction rest with
  | nil =>
    intro fs space rfs h
    cases rfs
    · rw [readDirLoop_nil_false]
      exact h
    · rw [readDirLoop_nil_true]
      dsimp only
      exact invFS_updateInode fs dirId _ (fun i => ⟨rfl, rfl⟩) h
  | cons e rest' ih =>
    intro fs space rfs h
    have h1 : InvFS (if e.Inode = 0 then (fs.insertInodeFromDirEntry dirId e now).1
        else fs) := by
      by_cases hi : e.Inode = 0
      · rw [if_pos hi]
        exact invFS_insertInodeFromDirEntry fs dirId e now h
      · rw [if_neg hi]
        exact h
    by_cases h0 : WriteDirent space (makeDirEntry e) = 0
    · rw [readDirLoop_cons_stop fs dirId e rest' space rfs now h0]
      exact h1
    · rw [readDirLoop_cons_go fs dirId e rest' space rfs now h0]
      dsimp only
      exact ih _ _ _ h1

theorem invFS_step (fs fs' : Fusera) (hst : Step fs fs') (h : InvFS fs) :
    InvFS fs' := by
  cases hst with
  | lookup pid name now =>
    rcases hp : fs.getInode? pid with _ | parent
    · simp only [Fusera.LookUpInode, hp]
      exact h
    · rcases hf : parent.findChildUnlockedFull name with _ | cid
      · simp only [Fusera.LookUpInode, hp, hf]
        exact h
      · rcases hc : fs.getInode? cid with _ | child
        · simp only [Fusera.LookUpInode, hp, hf, hc]
          exact h
        · simp only [Fusera.LookUpInode, hp, hf, hc]
          exact invFS_updateInode fs cid Inode.Ref (fun i => ⟨rfl, rfl⟩) h
  | readdir hh offset dstLen now out heq =>
    unfold Fusera.ReadDir at heq
    rcases hdh : fs.dirHandles.lookup hh with _ | dhh
    · rw [hdh] at heq
      exact absurd heq (by simp)
    · rw [hdh] at heq
      have h2 := Option.some.inj heq
      rw [← h2]
      exact invFS_readDirLoop dhh.inodeId now _ fs dstLen false h
  | opendir i l r heq =>
    simp only [Fusera.OpenDir] at heq
    split at heq
    · exact absurd heq (by simp)
    · have h2 := Option.some.inj heq
      rw [← h2]
      exact invFS_of_eq fs _ rfl rfl h
  | openfile i r heq =>
    simp only [Fusera.OpenFile] at heq
    split at heq
    · exact absurd heq (by simp)
    · have h2 := Option.some.inj heq
      rw [← h2]
      exact invFS_of_eq fs _ rfl rfl h
  | releasedir hh =>
    exact invFS_of_eq fs _ rfl rfl h
  | releasefile hh =>
    exact invFS_of_eq fs _ rfl rfl h

theorem foldlM_preserves {β : Type} (P : Fusera → Prop)
    (g : Fusera → β → Except String Fusera)
    (hg : ∀ s b s', P s → g s b = .ok s' → P s') :
    ∀ (l : List β) (s s' : Fusera), P s → l.foldlM g s = .ok s' → P s' := by
  intro l
  induction l with
  | nil =>
    intro s s' hs heq
    rw [List.foldlM_nil] at heq
    rw [← Except.ok.inj heq]
    exact hs
  | cons b t ih =>
    intro s s' hs heq
    rw [List.foldlM_cons] at heq
    rcases hgb : g s b with msg | s2
    · rw [hgb] at heq
      exact Except.noConfusion heq
    · rw [hgb] at heq
      exact ih s2 s' (hg s b s2 hs hgb) heq

theorem invFS_addFile (fs : Fusera) (dirId : Nat) (f : NrFile) (now : Nat)
    (fs' : Fusera) (h : InvFS fs) (heq : fs.addFile dirId f now = .ok fs') :
    InvFS fs' := by
  rcases hd : fs.getInode? dirId with _ | dir
  · simp only [Fusera.addFile, hd] at heq
    exact Except.noConfusion heq
  · rcases hu : parseUint64 f.Size with _ | u
    · simp only [Fusera.addFile, hd, hu] at heq
      exact Except.noConfusion heq
    · simp only [Fusera.addFile, hd, hu] at heq
      rw [← Except.ok.inj heq]
      refine invFS_of_eq _ _ rfl rfl ?_
      refine invFS_insertInode _ dirId _ ?_
      exact invFS_updateInode fs dirId _ (fun i => ⟨rfl, rfl⟩) h

theorem invFS_addAccession (fs : Fusera) (acc : Accession) (now : Nat)
    (fs' : Fusera) (h : InvFS fs) (heq : fs.addAccession acc now = .ok fs') :
    InvFS fs' := by
  rcases hr : fs.getInode? RootInodeID with _ | root
  · simp only [Fusera.addAccession, hr] at heq
    exact Except.noConfusion heq
  · simp only [Fusera.addAccession, hr] at heq
    refine foldlM_preserves InvFS _
      (fun s b s' hs hgg => invFS_addFile s _ b now s' hs hgg)
      acc.Files _ fs' ?_ heq
    exact invFS_insertInode fs RootInodeID _ h

theorem invFS_newFusera (flags : FlagStorage) (payload : List Accession)
    (now : Nat) (fs : Fusera) (heq : NewFusera flags payload now = .ok fs) :
    InvFS fs := by
  unfold NewFusera at heq
  refine foldlM_preserves InvFS _
    (fun s a s' hs hgg => invFS_addAccession s a now s' hs hgg)
    payload _ fs ?_ heq
  refine ⟨?_, ?_, ?_⟩
  · simp [Fusera.keys]
  · intro k hk
    simp [Fusera.keys] at hk
    rw [hk]
    exact ⟨Nat.le_refl _, Nat.lt_succ_self _⟩
  · exact ⟨_, rfl, rfl, rfl⟩

/-- C7: in every state reachable from construction by any operation sequence,
the inode-table keys are pairwise distinct and, read newest-first, strictly
decreasing (so each allocated id exceeds every previously allocated one), all
keys lie between the reserved root id and the allocator front, and the root id
is bound to a directory inode whose id field is the root constant — it is
never reassigned. -/
theorem C7_inodeID_invariants (fs : Fusera) (h : Reachable fs) :
    fs.keys.Nodup ∧
    List.Chain' (fun a b => b < a) fs.keys ∧
    (∀ k ∈ fs.keys, RootInodeID ≤ k ∧ k < fs.nextInodeID) ∧
    (∃ r, fs.getInode? RootInodeID = some r ∧ r.Id = RootInodeID ∧
      r.isDir = true) := by
  have hinv : InvFS fs := by
    induction h with
    | init flags payload now fs0 heq => exact invFS_newFusera flags payload now fs0 heq
    | step fs1 fs2 hreach hst ih => exact invFS_step fs1 fs2 hst ih
  obtain ⟨h1, h2, h3⟩ := hinv
  refine ⟨?_, h1, h2, h3⟩
  have hp : fs.keys.Pairwise (fun a b => b < a) := List.chain'_iff_pairwise.mp h1
  exact hp.imp (fun hab => (Nat.ne_of_lt hab).symm)

/-- C7 witness: the freshly constructed empty filesystem is reachable and
satisfies all the id invariants. -/
theorem C7_witness :
    fsInitC.keys.Nodup ∧
    List.Chain' (fun a b => b < a) fsInitC.keys ∧
    (∀ k ∈ fsInitC.keys, RootInodeID ≤ k ∧ k < fsInitC.nextInodeID) ∧
    (∃ r, fsInitC.getInode? RootInodeID = some r ∧ r.Id = RootInodeID ∧
      r.isDir = true) :=
  C7_inodeID_invariants fsInitC (Reachable.init flC [] 3 fsInitC rfl)

/-! ### Construction (`NewFusera`) lemmas -/

theorem addFile_ok_parse (fs : Fusera) (dirId : Nat) (f : NrFile) (now : Nat)
    (fs' : Fusera) (heq : fs.addFile dirId f now = .ok fs') :
    ∃ u, parseUint64 f.Size = some u := by
  rcases hd : fs.getInode? dirId with _ | dir
  · simp only [Fusera.addFile, hd] at heq
    exact Except.noConfusion heq
  · rcases hu : parseUint64 f.Size with _ | u
    · simp only [Fusera.addFile, hd, hu] at heq
      exact Except.noConfusion heq
    · exact ⟨u, rfl⟩

theorem addFiles_error (dirId now : Nat) (files : List NrFile)
    (hbad : ∃ f ∈ files, parseUint64 f.Size = none) :
    ∀ fs : Fusera, ∃ msg,
      files.foldlM (fun s f => Fusera.addFile s dirId f now) fs = .error msg := by
  induction files with
  | nil =>
    intro fs
    obtain ⟨f, hf, _⟩ := hbad
    simp at hf
  | cons f0 rest ih =>
    intro fs
    rcases hg : fs.addFile dirId f0 now with msg | s2
    · refine ⟨msg, ?_⟩
      rw [List.foldlM_cons, hg]
      rfl
    · obtain ⟨f, hf, hfp⟩ := hbad
      rcases List.mem_cons.mp hf with rfl | hf'
      · obtain ⟨u, hu⟩ := addFile_ok_parse fs dirId f now s2 hg
        rw [hfp] at hu
        exact Option.noConfusion hu
      · obtain ⟨msg, hmsg⟩ := ih ⟨f, hf', hfp⟩ s2
        refine ⟨msg, ?_⟩
        rw [List.foldlM_cons, hg]
        exact hmsg

theorem addAccession_error (now : Nat) (acc : Accession)
    (hbad : ∃ f ∈ acc.Files, parseUint64 f.Size = none) :
    ∀ fs : Fusera, ∃ msg, fs.addAccession acc now = .error msg := by
  intro fs
  rcases hr : fs.getInode? RootInodeID with _ | root
  · exact ⟨"missing root inode", by simp only [Fusera.addAccession, hr]⟩
  · simp only [Fusera.addAccession, hr]
    exact addFiles_error _ now acc.Files hbad _

theorem accs_error (now : Nat) : ∀ (payload : List Accession),
    (∃ acc ∈ payload, ∃ f ∈ acc.Files, parseUint64 f.Size = none) →
    ∀ fs : Fusera, ∃ msg,
      payload.foldlM (fun s a => Fusera.addAccession s a now) fs = .error msg := by
  intro payload
  induction payload with
  | nil =>
    intro hbad fs
    obtain ⟨acc, hacc, _⟩ := hbad
    simp at hacc
  | cons a rest ih =>
    intro hbad fs
    rcases hg : fs.addAccession a now with msg | s2
    · refine ⟨msg, ?_⟩
      rw [List.foldlM_cons, hg]
      rfl
    · rcases hbad with ⟨acc, hacc, hbf⟩
      rcases List.mem_cons.mp hacc with rfl | hacc'
      · obtain ⟨msg, hmsg⟩ := addAccession_error now acc hbf fs
        rw [hg] at hmsg
        exact Except.noConfusion hmsg
      · obtain ⟨msg, hmsg⟩ := ih ⟨acc, hacc', hbf⟩ s2
        refine ⟨msg, ?_⟩
        rw [List.foldlM_cons, hg]
        exact hmsg

theorem insertInode_shape (fs : Fusera) (pid : Nat) (ino : Inode) :
    ∀ j i, j < fs.nextInodeID → fs.getInode? j = some i →
      ∃ i2, (fs.insertInode pid ino).1.getInode? j = some i2 ∧
        i2.isDir = i.isDir ∧ i2.Name = i.Name ∧
        i2.Attributes.Size = i.Attributes.Size := by
  intro j i hj hji
  have hne : j ≠ fs.nextInodeID := Nat.ne_of_lt hj
  by_cases hp : j = pid
  · refine ⟨{ i with children :=
        i.children ++ [(({ ino with Id := fs.nextInodeID } : Inode).Name,
                        fs.nextInodeID)] }, ?_, rfl, rfl, rfl⟩
    simp only [Fusera.insertInode, Fusera.getInode?, Fusera.updateInode]
    rw [lookup_cons, if_neg hne, lookup_updA, if_pos hp,
      show fs.inodes.lookup j = some i from hji]
    rfl
  · refine ⟨i, ?_, rfl, rfl, rfl⟩
    simp only [Fusera.insertInode, Fusera.getInode?, Fusera.updateInode]
    rw [lookup_cons, if_neg hne, lookup_updA, if_neg hp]
    exact hji

theorem addFile_ok_spec (fs : Fusera) (dirId : Nat) (f : NrFile) (now : Nat)
    (fs' : Fusera) (heq : fs.addFile dirId f now = .ok fs') :
    fs.nextInodeID ≤ fs'.nextInodeID ∧
    (∃ u, parseUint64 f.Size = some u ∧ FilePresent fs' f.Name u) ∧
    (∀ j i, j < fs.nextInodeID → fs.getInode? j = some i →
       ∃ i2, fs'.getInode? j = some i2 ∧ i2.isDir = i.isDir ∧ i2.Name = i.Name ∧
         i2.Attributes.Size = i.Attributes.Size) := by
  rcases hd : fs.getInode? dirId with _ | dir
  · simp only [Fusera.addFile, hd] at heq
    exact Except.noConfusion heq
  · rcases hu : parseUint64 f.Size with _ | u
    · simp only [Fusera.addFile, hd, hu] at heq
      exact Except.noConfusion heq
    · simp only [Fusera.addFile, hd, hu] at heq
      rw [← Except.ok.inj heq]
      refine ⟨?_, ⟨u, rfl, ?_⟩, ?_⟩
      · exact Nat.le_succ _
      · refine ⟨fs.nextInodeID,
          { NewInode f.Name (dir.getChildName f.Name) with
            Id := fs.nextInodeID, Link := f.Link, Attributes := ⟨u, now⟩,
            fileHandles := 1 }, Nat.lt_succ_self _, ?_, rfl, rfl, rfl⟩
        simp only [Fusera.getInode?, Fusera.insertInode, Fusera.updateInode]
        rw [lookup_cons, if_pos rfl]
      · intro j i hj hji
        have hji2 : (fs.updateInode dirId (fun d => d.touch now)).getInode? j =
            if j = dirId then some (i.touch now) else some i := by
          rw [getInode?_updateInode]
          by_cases hjd : j = dirId
          · rw [if_pos hjd, if_pos hjd, hji]
            rfl
          · rw [if_neg hjd, if_neg hjd, hji]
        have hlt2 : j < (fs.updateInode dirId (fun d => d.touch now)).nextInodeID := hj
        by_cases hjd : j = dirId
        · rw [if_pos hjd] at hji2
          obtain ⟨i2, hg2, hs1, hs2, hs3⟩ := insertInode_shape
            (fs.updateInode dirId (fun d => d.touch now)) dirId _ j (i.touch now)
            hlt2 hji2
          exact ⟨i2, hg2, hs1, hs2, hs3⟩
        · rw [if_neg hjd] at hji2
          obtain ⟨i2, hg2, hs1, hs2, hs3⟩ := insertInode_shape
            (fs.updateInode dirId (fun d => d.touch now)) dirId _ j i hlt2 hji2
          exact ⟨i2, hg2, hs1, hs2, hs3⟩

theorem filePresent_mono (fs1 fs2 : Fusera)
    (hle : fs1.nextInodeID ≤ fs2.nextInodeID)
    (hsh : ∀ j i, j < fs1.nextInodeID → fs1.getInode? j = some i →
       ∃ i2, fs2.getInode? j = some i2 ∧ i2.isDir = i.isDir ∧ i2.Name = i.Name ∧
         i2.Attributes.Size = i.Attributes.Size)
    (n : String) (u : Nat) (h : FilePresent fs1 n u) : FilePresent fs2 n u := by
  obtain ⟨id, ino, hid, hlook, hdir, hname, hsize⟩ := h
  obtain ⟨i2, hlook2, hs1, hs2, hs3⟩ := hsh id ino hid hlook
  exact ⟨id, i2, Nat.lt_of_lt_of_le hid hle, hlook2,
    hs1.trans hdir, hs2.trans hname, hs3.trans hsize⟩

theorem addFiles_ok_spec (dirId now : Nat) : ∀ (files : List NrFile)
    (fs fs' : Fusera),
    files.foldlM (fun s f => Fusera.addFile s dirId f now) fs = .ok fs' →
    fs.nextInodeID ≤ fs'.nextInodeID ∧
    (∀ f ∈ files, ∃ u, parseUint64 f.Size = some u ∧ FilePresent fs' f.Name u) ∧
    (∀ j i, j < fs.nextInodeID → fs.getInode? j = some i →
       ∃ i2, fs'.getInode? j = some i2 ∧ i2.isDir = i.isDir ∧ i2.Name = i.Name ∧
         i2.Attributes.Size = i.Attributes.Size) := by
  intro files
  induction files with
  | nil =>
    intro fs fs' heq
    rw [List.foldlM_nil] at heq
    rw [← Except.ok.inj heq]
    refine ⟨Nat.le_refl _, ?_, ?_⟩
    · intro f hf
      simp at hf
    · intro j i _ hji
      exact ⟨i, hji, rfl, rfl, rfl⟩
  | cons f0 rest ih =>
    intro fs fs' heq
    rw [List.foldlM_cons] at heq
    rcases hg : fs.addFile dirId f0 now with msg | s2
    · rw [hg] at heq
      exact Except.noConfusion heq
    · rw [hg] at heq
      obtain ⟨hle1, ⟨u, hu, hfp⟩, hsh1⟩ := addFile_ok_spec fs dirId f0 now s2 hg
      obtain ⟨hle2, hall2, hsh2⟩ := ih s2 fs' heq
      refine ⟨Nat.le_trans hle1 hle2, ?_, ?_⟩
      · intro f hf
        rcases List.mem_cons.mp hf with rfl | hf'
        · exact ⟨u, hu, filePresent_mono s2 fs' hle2 hsh2 f.Name u hfp⟩
        · exact hall2 f hf'
      · intro j i hj hji
        obtain ⟨iA, hgA, hA1, hA2, hA3⟩ := hsh1 j i hj hji
        obtain ⟨iB, hgB, hB1, hB2, hB3⟩ := hsh2 j iA (Nat.lt_of_lt_of_le hj hle1) hgA
        exact ⟨iB, hgB, hB1.trans hA1, hB2.trans hA2, hB3.trans hA3⟩

theorem addAccession_ok_spec (now : Nat) (acc : Accession) (fs fs' : Fusera)
    (heq : fs.addAccession acc now = .ok fs') :
    fs.nextInodeID ≤ fs'.nextInodeID ∧
    (∀ f ∈ acc.Files, ∃ u, parseUint64 f.Size = some u ∧ FilePresent fs' f.Name u) ∧
    (∀ j i, j < fs.nextInodeID → fs.getInode? j = some i →
       ∃ i2, fs'.getInode? j = some i2 ∧ i2.isDir = i.isDir ∧ i2.Name = i.Name ∧
         i2.Attributes.Size = i.Attributes.Size) := by
  rcases hr : fs.getInode? RootInodeID with _ | root
  · simp only [Fusera.addAccession, hr] at heq
    exact Except.noConfusion heq
  · simp only [Fusera.addAccession, hr] at heq
    obtain ⟨hle2, hall2, hsh2⟩ := addFiles_ok_spec _ now acc.Files _ fs' heq
    refine ⟨?_, hall2, ?_⟩
    · exact Nat.le_trans (Nat.le_succ _) hle2
    · intro j i hj hji
      obtain ⟨iA, hgA, hA1, hA2, hA3⟩ := insertInode_shape fs RootInodeID _ j i hj hji
      obtain ⟨iB, hgB, hB1, hB2, hB3⟩ := hsh2 j iA (Nat.lt_succ_of_lt hj) hgA
      exact ⟨iB, hgB, hB1.trans hA1, hB2.trans hA2, hB3.trans hA3⟩

theorem accs_ok_spec (now : Nat) : ∀ (payload : List Accession) (fs fs' : Fusera),
    payload.foldlM (fun s a => Fusera.addAccession s a now) fs = .ok fs' →
    fs.nextInodeID ≤ fs'.nextInodeID ∧
    (∀ acc ∈ payload, ∀ f ∈ acc.Files,
       ∃ u, parseUint64 f.Size = some u ∧ FilePresent fs' f.Name u) ∧
    (∀ j i, j < fs.nextInodeID → fs.getInode? j = some i →
       ∃ i2, fs'.getInode? j = some i2 ∧ i2.isDir = i.isDir ∧ i2.Name = i.Name ∧
         i2.Attributes.Size = i.Attributes.Size) := by
  intro payload
  induction payload with
  | nil =>
    intro fs fs' heq
    rw [List.foldlM_nil] at heq
    rw [← Except.ok.inj heq]
    refine ⟨Nat.le_refl _, ?_, ?_⟩
    · intro acc hacc
      simp at hacc
    · intro j i _ hji
      exact ⟨i, hji, rfl, rfl, rfl⟩
  | cons a rest ih =>
    intro fs fs' heq
    rw [List.foldlM_cons] at heq
    rcases hg : fs.addAccession a now with msg | s2
    · rw [hg] at heq
      exact Except.noConfusion heq
    · rw [hg] at heq
      obtain ⟨hle1, hall1, hsh1⟩ := addAccession_ok_spec now a fs s2 hg
      obtain ⟨hle2, hall2, hsh2⟩ := ih s2 fs' heq
      refine ⟨Nat.le_trans hle1 hle2, ?_, ?_⟩
      · intro acc hacc f hf
        rcases List.mem_cons.mp hacc with rfl | hacc'
        · obtain ⟨u, hu, hfp⟩ := hall1 f hf
          exact ⟨u, hu, filePresent_mono s2 fs' hle2 hsh2 f.Name u hfp⟩
        · exact hall2 acc hacc' f hf
      · intro j i hj hji
        obtain ⟨iA, hgA, hA1, hA2, hA3⟩ := hsh1 j i hj hji
        obtain ⟨iB, hgB, hB1, hB2, hB3⟩ := hsh2 j iA (Nat.lt_of_lt_of_le hj hle1) hgA
        exact ⟨iB, hgB, hB1.trans hA1, hB2.trans hA2, hB3.trans hA3⟩

/-- C8: if any declared file size in the payload fails to parse as a 64-bit
unsigned decimal, `NewFusera` returns an error and no filesystem is produced;
if construction succeeds, then every payload file has a parsed size and a file
inode with that name whose attribute size is exactly the parsed value. -/
theorem C8_newFusera_sizes (flags : FlagStorage) (payload : List Accession)
    (now : Nat) :
    ((∃ acc ∈ payload, ∃ f ∈ acc.Files, parseUint64 f.Size = none) →
       ∃ msg, NewFusera flags payload now = .error msg) ∧
    (∀ fs, NewFusera flags payload now = .ok fs →
       ∀ acc ∈ payload, ∀ f ∈ acc.Files,
         ∃ u, parseUint64 f.Size = some u ∧ FilePresent fs f.Name u) := by
  constructor
  · intro hbad
    unfold NewFusera
    exact accs_error now payload hbad _
  · intro fs heq acc hacc f hf
    unfold NewFusera at heq
    exact (accs_ok_spec now payload _ fs heq).2.1 acc hacc f hf

/-- C8 witness: the bad payload (size "12x") makes construction fail, and the
good payload `payC` yields a file inode named "a" of size 100. -/
theorem C8_witness :
    (∃ msg, NewFusera flC payBadC 0 = .error msg) ∧
    (∃ u, parseUint64 "100" = some u ∧ FilePresent fsPayC "a" u) := by
  constructor
  · refine (C8_newFusera_sizes flC payBadC 0).1
      ⟨{ ID := "ACC1", Files := [{ Name := "a", Link := "l1", Size := "12x" }] },
       by simp [payBadC],
       { Name := "a", Link := "l1", Size := "12x" }, by simp, rfl⟩
  · exact (C8_newFusera_sizes flC payC 3).2 fsPayC rfl
      { ID := "ACC1",
        Files := [{ Name := "a", Link := "l1", Size := "100" },
                  { Name := "b", Link := "l2", Size := "200" }] }
      (by simp [payC])
      { Name := "a", Link := "l1", Size := "100" } (by simp)
